import Mathlib

/-
Verification development for the SpectralCLBridge engine
(src/dll/SpectralCLBridge/SpectralCLBridge.cpp).

Shallow embedding conventions:
  - C `double` values are modelled as real numbers (`ℝ`); the double
    constant `kPi` is modelled as the real number `π`.
  - C `int` / `int64_t` are modelled as `Int`, `uint64_t` counters as `Nat`
    (no counter in the source can plausibly reach 2^64 in the scenarios the
    spec quantifies over, so wraparound is not modelled).
  - `std::vector<double>` / `std::deque<...>` become Lean `List`s; the front
    of a deque is the head of the list.
  - The OpenCL backend is modelled as follows: the pure kernels
    (`win_core`, `dft_complex`) are embedded as functions; the possibility
    of backend failure (`cl_init`, kernel enqueue, reads) is modelled by an
    oracle returning `Option` results where a claim depends on it.
  - The concurrency harness (one worker thread, one mutex) is modelled as a
    small-step event system: `Event.submit` is one `SCL_Submit` call,
    `Event.take` is the worker popping the queue head under the lock, and
    `Event.deposit` is the worker publishing the computed result under the
    lock.  All interleavings of these events are exactly the behaviours the
    lock allows in the source.
-/

set_option autoImplicit false
set_option linter.unusedVariables false

open Real

namespace SCL

/-- Source constant `kOutFields = 12`. -/
def kOutFields : Nat := 12

/-- Source constant `kQueueMax = 256`. -/
def kQueueMax : Nat := 256

/-- Source constant `kRingMax = 4096`. -/
def kRingMax : Nat := 4096

/-- The source's double constant `kPi`, modelled as the real number `π`. -/
noncomputable def kPi : ℝ := Real.pi

/-- Loop body of `next_pow2` (SpectralCLBridge.cpp lines 237-241):
`int p = 1; while (p < n && p < (1 << 30)) p <<= 1; return p;`.
The loop is embedded with explicit fuel; `next_pow2_loop_fix` below proves
that the fuel used in `next_pow2` always reaches the loop's exit condition,
so the fueled function computes exactly what the `while` loop computes. -/
def next_pow2_loop : Nat → Int → Int → Int
  | 0, p, _ => p
  | fuel + 1, p, n => if p < n ∧ p < 2 ^ 30 then next_pow2_loop fuel (p * 2) n else p

/-- Source function `next_pow2` (lines 237-241). -/
def next_pow2 (n : Int) : Int := next_pow2_loop 31 1 n

/-- Source function `is_pow2` (lines 243-245):
`(n > 0) && ((n & (n - 1)) == 0)`.  For `n > 0` the bitwise test is taken
on the underlying natural number (`n & (n-1)` on a positive `int` equals
`n.toNat &&& (n.toNat - 1)`). -/
def is_pow2 (n : Int) : Bool := decide (0 < n) && (n.toNat &&& (n.toNat - 1) == 0)

/-- Effective FFT length chosen by `gpu_periodogram` (lines 839-843):
`nperseg = (nfft > 0 ? min(nfft, N) : N)`,
`nfft_eff = max(nfft > 0 ? nfft : nperseg, nperseg)`, then `next_pow2`. -/
def periodogram_nfft_eff (nfft N : Int) : Int :=
  let nperseg : Int := if 0 < nfft then min nfft N else N
  let e0 : Int := if 0 < nfft then nfft else nperseg
  let e1 : Int := if e0 < nperseg then nperseg else e0
  next_pow2 e1

/-- Effective FFT length chosen by `gpu_stft` (lines 925-936), after the
`nperseg` / `noverlap` clamping. -/
def stft_nfft_eff (nperseg noverlap nfft N : Int) : Int :=
  let np0 : Int := if nperseg ≤ 0 then N else nperseg
  let np : Int := if N < np0 then N else np0
  let e0 : Int := if 0 < nfft then nfft else np
  let e1 : Int := if e0 < np then np else e0
  next_pow2 e1
  -- noverlap only affects the segment count, not the transform length
  -- (kept as an argument to mirror the source signature)

/-- Branch condition of `fft_execute_single` (lines 448-457): the naive
O(N²) `dft_complex` kernel is enqueued exactly when `!is_pow2(N)`. -/
def fft_single_uses_dft (N : Int) : Bool := !(is_pow2 N)

/-- Length of the complex vector that the Chebyshev branch of
`window_generate_gpu` (lines 495-519) hands to `fft_execute_single`:
`Mx = fftbins ? (M + 1) : M`. -/
def cheb_fft_len (M : Int) (fftbins : Bool) : Int := if fftbins then M + 1 else M

/-
Synchrony reducer of `compute_job` (lines 1076-1104).
-/

/-- `std::atan2(y, x)` modelled as the argument of the complex number
`x + i y` (both agree on range and branch cuts: values in `(-π, π]`, and
`atan2(0,0) = 0 = Complex.arg 0`). -/
noncomputable def atan2 (y x : ℝ) : ℝ := Complex.arg ⟨x, y⟩

/-- The folding loop `while (phase_diff > kPi) phase_diff = fabs(phase_diff
- 2.0 * kPi);` (line 1080), embedded with explicit fuel.  Claim C9 proves
that one unit of fuel already reaches the loop's exit condition for every
input the source can produce (`d = |φ_P - φ_W| ≤ 2π`), so the fueled
embedding computes what the `while` loop computes there. -/
noncomputable def wrap_fold : Nat → ℝ → ℝ
  | 0, d => d
  | n + 1, d => if kPi < d then wrap_fold n |d - 2 * kPi| else d

/-- `phase_diff` as computed at lines 1079-1080 from the two phases. -/
noncomputable def phase_diff_of (phP phW : ℝ) : ℝ := wrap_fold 1 |phP - phW|

/-- The ternary at line 1081: the formula is used only when both dominant
periods are positive, otherwise 0. -/
noncomputable def syncPct_raw (perP perW phP phW : ℝ) : ℝ :=
  if 0 < perP ∧ 0 < perW then 100 * (1 - phase_diff_of phP phW / kPi) else 0

/-- The statement `if (syncPct < 0.0) syncPct = 0.0;` (line 1082). -/
noncomputable def clamp_lo (x : ℝ) : ℝ := if x < 0 then 0 else x

/-- The statement `if (syncPct > 100.0) syncPct = 100.0;` (line 1083). -/
noncomputable def clamp_hi (x : ℝ) : ℝ := if 100 < x then 100 else x

/-- `syncPct` as computed at lines 1081-1083. -/
noncomputable def syncPct_of (perP perW phP phW : ℝ) : ℝ :=
  clamp_hi (clamp_lo (syncPct_raw perP perW phP phW))

/-- `dSync` as computed at line 1084. -/
noncomputable def dSync_of (perP perW phP phW : ℝ) : ℝ := 100 - syncPct_of perP perW phP phW

/-
Data model (source lines 36-76) and the job-queue / worker event system
(SCL_Submit lines 1179-1213, worker_loop lines 1107-1134).
-/

/-- Source struct `Job` (lines 36-48). -/
structure Job where
  key : Int
  bar_time : Int
  price : List ℝ
  wave : List ℝ
  window_min : Int
  window_max : Int
  nfft : Int
  detrend : Int
  min_period : ℝ
  max_period : ℝ
  flags : Int

/-- Source struct `Result` (lines 50-54); `out` is the vector of
`kOutFields` doubles. -/
structure Result where
  time : Int
  seq : Int
  out : List ℝ

/-- Source struct `Context` (lines 56-62); `ring` front is the list head. -/
structure Context where
  ring : List Result
  seq : Int
  jobs_ok : Nat
  jobs_drop : Nat
  last_ms : ℝ

/-- A default-constructed `Context{}` as produced by `g_ctx[key]` on a
missing key. -/
noncomputable def Context.fresh : Context := ⟨[], 0, 0, 0, 0⟩

/-- `g_ctx` (an `unordered_map<int64_t, Context>`) modelled as an
association list; `ctxFind` is `find`. -/
noncomputable def ctxFind : List (Int × Context) → Int → Option Context
  | [], _ => none
  | (k0, c) :: rest, k => if k0 = k then some c else ctxFind rest k

/-- `g_ctx[key]` followed by a mutation `f` of the mapped `Context`
(default-constructing it first when the key is absent, as `operator[]`
does). -/
noncomputable def ctxUpdate : List (Int × Context) → Int → (Context → Context) →
    List (Int × Context)
  | [], k, f => [(k, f Context.fresh)]
  | (k0, c) :: rest, k, f =>
    if k0 = k then (k0, f c) :: rest else (k0, c) :: ctxUpdate rest k f

/-- The `seq` counter of a key's `Context` (0 when the `Context` does not
exist yet, matching the default constructor). -/
noncomputable def ctxSeq (m : List (Int × Context)) (k : Int) : Int :=
  ((ctxFind m k).map Context.seq).getD 0

/-- The `jobs_ok` counter of a key's `Context` (0 when absent). -/
noncomputable def ctxOk (m : List (Int × Context)) (k : Int) : Nat :=
  ((ctxFind m k).map Context.jobs_ok).getD 0

/-- The `jobs_drop` counter of a key's `Context` (0 when absent). -/
noncomputable def ctxDrop (m : List (Int × Context)) (k : Int) : Nat :=
  ((ctxFind m k).map Context.jobs_drop).getD 0

/-- Output of one `gpu_periodogram` call as consumed by `compute_job`:
frequency grid, power vector and raw complex spectrum (pairs of re/im). -/
structure PeriodoOut where
  freqs : List ℝ
  pxx : List ℝ
  spec : List (ℝ × ℝ)

/-- Abstraction of `gpu_periodogram(x, 1.0, "hann", nfft, detrend, true,
"density", ...)` as called by `compute_job` (lines 1035-1036): the result
is a function of the input slice, `nfft` and `detrend`; `none` models a
`false` return (OpenCL backend unavailable, kernel enqueue or read
failure). -/
def GpuOracle : Type := List ℝ → Int → Int → Option PeriodoOut

/-- State of the argmax scan at lines 1041-1044. -/
structure ScanState where
  best_pow_local : ℝ
  best_pow_global : ℝ
  best_k_local : Int
  best_k_global : Int

/-- One iteration of the scan loop (lines 1046-1052): skip non-positive
frequencies, track the global argmax over periods `p ≥ 2` and the local
argmax over `min_period ≤ p ≤ max_period`. -/
noncomputable def scan_step (freqs pxx : List ℝ) (minp maxp : ℝ) (st : ScanState) (k : Nat) :
    ScanState :=
  let f := freqs.getD k 0
  if f ≤ 0 then st
  else
    let p := 1 / f
    let pk := pxx.getD k 0
    let st1 := if 2 ≤ p ∧ st.best_pow_global < pk then
        { st with best_pow_global := pk, best_k_global := (k : Int) } else st
    if minp ≤ p ∧ p ≤ maxp ∧ st1.best_pow_local < pk then
      { st1 with best_pow_local := pk, best_k_local := (k : Int) } else st1

/-- The full scan over bins `k = 1 .. nfreq-1`, from the `-1` sentinels. -/
noncomputable def scan_best (freqs pxx : List ℝ) (minp maxp : ℝ) : ScanState :=
  ((List.range freqs.length).drop 1).foldl (scan_step freqs pxx minp maxp) ⟨-1, -1, -1, -1⟩

/-- Dominant period, phase and global period extracted from one stream's
periodogram (lines 1053-1057 for price, 1070-1074 for wave). -/
noncomputable def periodo_pick (P : PeriodoOut) (minp maxp : ℝ) : ℝ × ℝ × ℝ :=
  let st := scan_best P.freqs P.pxx minp maxp
  let per := if 0 < st.best_k_local then 1 / P.freqs.getD st.best_k_local.toNat 0 else 0
  let ph := if 0 < st.best_k_local then
      atan2 (P.spec.getD st.best_k_local.toNat (0, 0)).2
            (P.spec.getD st.best_k_local.toNat (0, 0)).1 else 0
  let perG := if 0 < st.best_k_global then 1 / P.freqs.getD st.best_k_global.toNat 0 else 0
  (per, ph, perG)

/-- The all-zero output vector that `compute_job` starts from (line 1021). -/
noncomputable def zeroOut : List ℝ := List.replicate kOutFields 0

/-- Source function `compute_job` (lines 1018-1105).  The early returns
(empty inputs, usable width below `window_min`, failed periodogram) leave
the zero-initialised result in place. -/
noncomputable def compute_job (gpu : GpuOracle) (job : Job) : Result :=
  let base : Result := ⟨job.bar_time, 0, zeroOut⟩
  let N : Int := min (job.price.length : Int) (job.wave.length : Int)
  if N ≤ 0 then base
  else
    let W : Int := min job.window_max N
    if W < job.window_min then base
    else
      let price := job.price.take W.toNat
      let wave := job.wave.take W.toNat
      match gpu price job.nfft job.detrend with
      | none => base
      | some P =>
        match gpu wave job.nfft job.detrend with
        | none => base
        | some Wv =>
          let pp := periodo_pick P job.min_period job.max_period
          let pw := periodo_pick Wv job.min_period job.max_period
          let perP := pp.1
          let phP := pp.2.1
          let perPG := pp.2.2
          let perW := pw.1
          let phW := pw.2.1
          let perWG := pw.2.2
          let perSub := if 0 < perP then perP * 0.5 else 0
          let syncPct := syncPct_of perP perW phP phW
          let dSync := dSync_of perP perW phP phW
          let progP := clamp_lo (if 0 ≤ phP then phP / (2 * kPi) * 100 else 0)
          let progW := clamp_lo (if 0 ≤ phW then phW / (2 * kPi) * 100 else 0)
          let syncb : Int := ⌊|(if 0 < perP then perP else 0) - (if 0 < perW then perW else 0)|⌋
          ⟨job.bar_time, 0,
            [perP, perPG, perW, perWG, perSub, syncPct, dSync, progP, progW,
             (syncb : ℝ), phP, 0]⟩

/-- The shared mutable state guarded by `g_mu`: the pending-job deque
`g_jobs`, the per-key contexts `g_ctx`, the job the worker has popped but
not yet deposited (between the two critical sections of `worker_loop`),
and the `g_stop` flag. -/
structure EngineState where
  jobs : List Job
  ctxs : List (Int × Context)
  inflight : Option Job
  stop : Bool

/-- Fresh engine state (empty queue, no contexts, worker idle). -/
noncomputable def init0 : EngineState := ⟨[], [], none, false⟩

/-- One event of the interleaved execution: an `SCL_Submit` call, the
worker popping the queue head under the lock, or the worker depositing the
computed result under the lock (recording `ms`, the measured latency, an
arbitrary environment-chosen value). -/
inductive Event where
  | submit (key bar_time : Int) (price wave : List ℝ)
      (window_min window_max nfft detrend : Int) (min_period max_period : ℝ)
      (flags : Int)
  | take
  | deposit (ms : ℝ)

/-- Per-event observation: `rc` is the `(key, return value)` of a submit,
`dep` is the `(key, assigned seq)` of a deposit. -/
structure Obs where
  rc : Option (Int × Int)
  dep : Option (Int × Int)

/-- `SCL_Submit` (lines 1179-1213): reject when stopping or on empty
inputs (the source also rejects null pointers, which the `List` model
cannot express separately from length 0); otherwise, under the lock: when
the queue is full, pop the oldest job and bump `jobs_drop` on the incoming
key; then push the new job at the tail and report acceptance. -/
noncomputable def SCL_Submit_step (s : EngineState) (key bar_time : Int)
    (price wave : List ℝ) (window_min window_max nfft detrend : Int)
    (min_period max_period : ℝ) (flags : Int) : EngineState × Int :=
  if s.stop then (s, 0)
  else if price.length = 0 ∨ wave.length = 0 then (s, 0)
  else
    let job : Job := ⟨key, bar_time, price, wave, window_min, window_max, nfft,
                      detrend, min_period, max_period, flags⟩
    let s1 :=
      if kQueueMax ≤ s.jobs.length then
        { s with jobs := s.jobs.tail,
                 ctxs := ctxUpdate s.ctxs key
                   (fun c => { c with jobs_drop := c.jobs_drop + 1 }) }
      else s
    ({ s1 with jobs := s1.jobs ++ [job] }, 1)

/-- The worker popping the queue head (lines 1110-1116): only when not
stopping, nothing already in flight, and the queue is nonempty. -/
noncomputable def worker_take (s : EngineState) : EngineState :=
  if s.stop then s
  else
    match s.inflight, s.jobs with
    | none, j :: rest => { s with jobs := rest, inflight := some j }
    | _, _ => s

/-- The worker's deposit critical section (lines 1124-1132): increment the
per-key `seq` and assign it to the result, record the latency, increment
`jobs_ok`, and push the result at the ring front (evicting the back when
the ring is full). -/
noncomputable def worker_deposit (gpu : GpuOracle) (s : EngineState) (ms : ℝ) :
    EngineState × Option (Int × Int) :=
  match s.inflight with
  | none => (s, none)
  | some job =>
    let res := compute_job gpu job
    let s1 := { s with
      inflight := none
      ctxs := ctxUpdate s.ctxs job.key (fun c =>
        { c with
          seq := c.seq + 1
          last_ms := ms
          jobs_ok := c.jobs_ok + 1
          ring := { res with seq := c.seq + 1 } ::
            (if kRingMax ≤ c.ring.length then c.ring.dropLast else c.ring) }) }
    (s1, some (job.key, ctxSeq s.ctxs job.key + 1))

/-- One interleaving step. -/
noncomputable def stepEv (gpu : GpuOracle) (s : EngineState) : Event → EngineState × Obs
  | Event.submit k bt p w wmin wmax nfft det minp maxp flags =>
    let r := SCL_Submit_step s k bt p w wmin wmax nfft det minp maxp flags
    (r.1, ⟨some (k, r.2), none⟩)
  | Event.take => (worker_take s, ⟨none, none⟩)
  | Event.deposit ms =>
    let r := worker_deposit gpu s ms
    (r.1, ⟨none, r.2⟩)

/-- Run a list of events, collecting the per-event observations. -/
noncomputable def runLog (gpu : GpuOracle) (s : EngineState) :
    List Event → EngineState × List Obs
  | [] => (s, [])
  | e :: es =>
    let r := stepEv gpu s e
    let rest := runLog gpu r.1 es
    (rest.1, r.2 :: rest.2)

/-- Final state of a run. -/
noncomputable def run (gpu : GpuOracle) (s : EngineState) (events : List Event) :
    EngineState :=
  (runLog gpu s events).1

/-- A valid but degenerate submit used by the concrete runs below: price
and wave are the one-sample series `[0]`, `window_min = 1`,
`window_max = 0`, so the job is accepted but its usable width `W = 0` is
below `window_min`. -/
noncomputable def subEv (k : Int) : Event :=
  Event.submit k 0 [0] [0] 1 0 0 0 0 0 0

/-- Oracle modelling an unavailable backend: every periodogram fails. -/
def gpuNone : GpuOracle := fun _ _ _ => none

/-- One worker round: pop the queue head, then deposit the result. -/
noncomputable def drainPair : List Event := [Event.take, Event.deposit 0]

/-- The job built by `subEv k`. -/
noncomputable def subJob (k : Int) : Job := ⟨k, 0, [0], [0], 1, 0, 0, 0, 0, 0, 0⟩

/-- The C2 counterexample run: 256 accepted submits on key 1 fill the
queue; one accepted submit on key 2 evicts the oldest key-1 job and bumps
`jobs_drop` on key 2 (the incoming key); then the worker drains the 256
remaining jobs (255 on key 1, one on key 2). -/
noncomputable def cexEvents : List Event :=
  List.replicate 256 (subEv 1) ++ [subEv 2] ++ (List.replicate 256 drainPair).flatten

/-- 1 when a job is in flight (popped but not yet deposited), else 0. -/
noncomputable def inflightCount (s : EngineState) : Nat :=
  if s.inflight.isSome then 1 else 0

/-- An event is either not a submit, or a submit carrying key `k`. -/
def isSubmitOf (k : Int) : Event → Prop
  | Event.submit k0 _ _ _ _ _ _ _ _ _ _ => k0 = k
  | _ => True

/-- Key/seq pairs of the deposits recorded in an observation log, filtered
to key `k`, in order. -/
noncomputable def logSeqs (log : List Obs) (k : Int) : List Int :=
  (log.filterMap Obs.dep).filterMap (fun p => if p.1 = k then some p.2 else none)

/-- A full-queue engine state used as a concrete witness input: 256
pending jobs on key 1, no contexts, worker idle. -/
noncomputable def c1State : EngineState :=
  ⟨List.replicate kQueueMax ⟨1, 0, [0], [0], 1, 0, 0, 0, 0, 0, 0⟩, [], none, false⟩

/-- Accepted-submit count for key `k` in an observation log. -/
noncomputable def logAccepted (log : List Obs) (k : Int) : Nat :=
  (log.filterMap Obs.rc).countP (fun p => decide (p.1 = k) && decide (p.2 = 1))

/-- Number of accepted submits (return value 1) carrying key `k` in a run
from the fresh state. -/
noncomputable def acceptedCount (gpu : GpuOracle) (events : List Event) (k : Int) : Nat :=
  logAccepted (runLog gpu init0 events).2 k

/-- The sequence numbers deposited for key `k`, in deposit order, in a run
from the fresh state. -/
noncomputable def depositSeqs (gpu : GpuOracle) (events : List Event) (k : Int) : List Int :=
  logSeqs (runLog gpu init0 events).2 k

/-
Window library (kernel `win_core`, source lines 90-115; name resolution,
lines 402-432; Chebyshev and Taylor constructions inside
`window_generate_gpu`, lines 490-667).
-/

/-- `bessel_i0` from the kernel source (lines 84-88): the two-branch
polynomial approximation of the modified Bessel function. -/
noncomputable def bessel_i0 (x : ℝ) : ℝ :=
  let ax := |x|
  if ax < 3.75 then
    let y0 := x / 3.75
    let y := y0 * y0
    1 + y * (3.5156229 + y * (3.0899424 + y * (1.2067492 + y * (0.2659732 +
      y * (0.0360768 + y * 0.0045813)))))
  else
    let y := 3.75 / ax
    (Real.exp ax / Real.sqrt ax) * (0.39894228 + y * (0.01328592 + y * (0.00225319 +
      y * (-0.00157565 + y * (0.00916281 + y * (-0.02057706 + y * (0.02635537 +
      y * (-0.01647633 + y * 0.00392377))))))))

/-- The `win_core` kernel (lines 90-115): value of the length-`M` window of
the given type at sample `i`.  `params` and `coeffs` mirror the kernel's
buffers (reads past the end yield the default 0; the host never does that
for resolved names). -/
noncomputable def win_core (type : Int) (M : ℕ) (params coeffs : List ℝ) (i : ℕ) : ℝ :=
  let N : ℝ := M
  let x : ℝ := i
  let hlf : ℝ := (N - 1) / 2
  if type = 0 then 1
  else if type = 1 then 1 - |(x - hlf) / ((N + 1) / 2)|
  else if type = 2 then
    let t := |(x - hlf) / (hlf + 1)|
    if t ≤ 0.5 then 1 - 6 * t ^ 2 + 6 * t ^ 3
    else if t ≤ 1 then 2 * (1 - t) ^ 3
    else 0
  else if type = 3 then
    let t := |(x - hlf) / hlf|
    (1 - t) * Real.cos (kPi * t) + (1 / kPi) * Real.sin (kPi * t)
  else if type = 4 then
    let ang := 2 * kPi * x / (N - 1)
    0.42 - 0.5 * Real.cos ang + 0.08 * Real.cos (2 * ang)
  else if type = 5 then
    let ang := 2 * kPi * x / (N - 1)
    0.355768 - 0.487396 * Real.cos ang + 0.144232 * Real.cos (2 * ang) -
      0.012604 * Real.cos (3 * ang)
  else if type = 6 then
    let ang := 2 * kPi * x / (N - 1)
    0.35875 - 0.48829 * Real.cos ang + 0.14128 * Real.cos (2 * ang) -
      0.01168 * Real.cos (3 * ang)
  else if type = 7 then
    let ang := 2 * kPi * x / (N - 1)
    1 - 1.93 * Real.cos ang + 1.29 * Real.cos (2 * ang) - 0.388 * Real.cos (3 * ang) +
      0.0322 * Real.cos (4 * ang)
  else if type = 8 then 1 - |(x - hlf) / hlf|
  else if type = 9 then
    let ang := 2 * kPi * x / (N - 1)
    0.5 - 0.5 * Real.cos ang
  else if type = 10 then
    let alpha := params.getD 0 0
    if alpha ≤ 0 then 1
    else if 1 ≤ alpha then
      let ang := 2 * kPi * x / (N - 1)
      0.5 - 0.5 * Real.cos ang
    else
      let edge := alpha * (N - 1) / 2
      if x < edge then 0.5 * (1 + Real.cos (kPi * (2 * x / alpha / (N - 1) - 1)))
      else if x ≤ (N - 1) * (1 - alpha / 2) then 1
      else 0.5 * (1 + Real.cos (kPi * (2 * x / alpha / (N - 1) - 2 / alpha + 1)))
  else if type = 11 then
    let t := |(x - hlf) / hlf|
    0.62 - 0.48 * t + 0.38 * Real.cos (kPi * t)
  else if type = 12 then
    let alpha := params.getD 0 0
    let ang := 2 * kPi * x / (N - 1)
    alpha - (1 - alpha) * Real.cos ang
  else if type = 13 then
    let ang := 2 * kPi * x / (N - 1)
    0.54 - 0.46 * Real.cos ang
  else if type = 14 then
    let beta := params.getD 0 0
    let r := 2 * x / (N - 1) - 1
    bessel_i0 (beta * Real.sqrt (1 - r * r)) / bessel_i0 beta
  else if type = 15 then
    let sd := params.getD 0 0
    let t := (x - hlf) / sd
    Real.exp (-0.5 * t * t)
  else if type = 16 then
    let pp := params.getD 0 0
    let sig := params.getD 1 0
    let t := |(x - hlf) / sig|
    Real.exp (-0.5 * t ^ (2 * pp))
  else if type = 17 then Real.sin (kPi / N * (x + 0.5))
  else if type = 18 then
    let tau := params.getD 0 0
    let center0 := params.getD 1 0
    let center := if center0 < 0 then (N - 1) / 2 else center0
    Real.exp (-|x - center| / tau)
  else if type = 19 then
    let delta := 2 * kPi / (N - 1)
    let fac := -kPi + delta * x
    (List.range coeffs.length).foldl
      (fun t kk => t + coeffs.getD kk 0 * Real.cos (kk * fac)) 0
  else if type = 21 then
    let norm := params.getD 0 0
    let mod_pi := 2 * kPi / N
    let temp := mod_pi * (x - N / 2 + 0.5)
    let dot := (List.range coeffs.length).foldl
      (fun t kk => t + coeffs.getD kk 0 * Real.cos (temp * ((kk : ℝ) + 1))) 0
    let val := 1 + 2 * dot
    if 0.5 < norm then
      let temp2 := mod_pi * ((N - 1) / 2 - N / 2 + 0.5)
      let dot2 := (List.range coeffs.length).foldl
        (fun t kk => t + coeffs.getD kk 0 * Real.cos (temp2 * ((kk : ℝ) + 1))) 0
      val * (1 / (1 + 2 * dot2))
    else val
  else 0

/-- Source struct `WindowSpec` (lines 390-400). -/
structure WindowSpec where
  type : Int
  params : List ℝ
  coeffs : List ℝ
  use_cheb : Bool
  use_taylor : Bool
  taylor_nbar : Int
  taylor_sll : ℝ
  taylor_norm : Bool
  cheb_at : ℝ

/-- Default-constructed `WindowSpec` (field initialisers at lines 391-399). -/
noncomputable def defaultSpec : WindowSpec := ⟨9, [], [], false, false, 4, 30, true, 100⟩

/-- `window_spec_from_name` (lines 402-432): case-insensitive alias table;
unrecognised names fall back to Hann (type 9). -/
noncomputable def window_spec_from_name (name : String) : WindowSpec :=
  let n := name.toLower
  if n = "boxcar" ∨ n = "box" ∨ n = "ones" ∨ n = "rect" ∨ n = "rectangular" then
    { defaultSpec with type := 0 }
  else if n = "triang" ∨ n = "triangle" ∨ n = "tri" then { defaultSpec with type := 1 }
  else if n = "parzen" ∨ n = "parz" ∨ n = "par" then { defaultSpec with type := 2 }
  else if n = "bohman" ∨ n = "bman" ∨ n = "bmn" then { defaultSpec with type := 3 }
  else if n = "blackman" ∨ n = "black" ∨ n = "blk" then { defaultSpec with type := 4 }
  else if n = "blackmanharris" ∨ n = "blackharr" ∨ n = "bkh" then
    { defaultSpec with type := 6 }
  else if n = "nuttall" ∨ n = "nutl" ∨ n = "nut" then { defaultSpec with type := 5 }
  else if n = "flattop" ∨ n = "flat" ∨ n = "flt" then { defaultSpec with type := 7 }
  else if n = "bartlett" ∨ n = "bart" ∨ n = "brt" then { defaultSpec with type := 8 }
  else if n = "hann" ∨ n = "hanning" ∨ n = "han" then { defaultSpec with type := 9 }
  else if n = "hamming" ∨ n = "hamm" ∨ n = "ham" then { defaultSpec with type := 13 }
  else if n = "barthann" ∨ n = "brthan" ∨ n = "bth" then { defaultSpec with type := 11 }
  else if n = "cosine" ∨ n = "halfcosine" then { defaultSpec with type := 17 }
  else if n = "tukey" ∨ n = "tuk" then { defaultSpec with type := 10, params := [0.5] }
  else if n = "kaiser" ∨ n = "ksr" then { defaultSpec with type := 14, params := [0] }
  else if n = "gaussian" ∨ n = "gauss" ∨ n = "gss" then
    { defaultSpec with type := 15, params := [1] }
  else if n = "general_gaussian" ∨ n = "general gaussian" ∨ n = "general gauss" ∨
      n = "general_gauss" ∨ n = "ggs" then
    { defaultSpec with type := 16, params := [1, 1] }
  else if n = "general_cosine" ∨ n = "general cosine" then { defaultSpec with type := 19 }
  else if n = "general_hamming" then { defaultSpec with type := 12, params := [0.54] }
  else if n = "exponential" ∨ n = "poisson" then
    { defaultSpec with type := 18, params := [1, -1] }
  else if n = "chebwin" ∨ n = "cheb" then
    { defaultSpec with use_cheb := true, cheb_at := 100 }
  else if n = "taylor" then
    { defaultSpec with
        use_taylor := true, taylor_nbar := 4, taylor_sll := 30, taylor_norm := true }
  else defaultSpec

/-- Host helper `acosh_d` (lines 378-380). -/
noncomputable def acosh_d (x : ℝ) : ℝ := Real.log (x + Real.sqrt (x * x - 1))

/-- Host helper `cosh_d` (lines 382-384). -/
noncomputable def cosh_d (x : ℝ) : ℝ := 0.5 * (Real.exp x + Real.exp (-x))

/-- The `dft_complex` kernel (lines 155-164) on a list of complex pairs.
`fft_execute_single` computes exactly this transform: for non-powers of
two it enqueues `dft_complex` directly, and for powers of two its radix-2
branch computes the identical DFT in exact arithmetic. -/
noncomputable def dft (input : List (ℝ × ℝ)) (inverse : Bool) : List (ℝ × ℝ) :=
  let N := input.length
  let sign : ℝ := if inverse then 1 else -1
  (List.range N).map (fun k =>
    let sum := (List.range N).foldl (fun acc (n : ℕ) =>
      let ang := sign * 2 * kPi * ((k : ℝ) * (n : ℝ)) / (N : ℝ)
      let v := input.getD n (0, 0)
      (acc.1 + (v.1 * Real.cos ang - v.2 * Real.sin ang),
       acc.2 + (v.1 * Real.sin ang + v.2 * Real.cos ang))) ((0 : ℝ), (0 : ℝ))
    if inverse then (sum.1 / (N : ℝ), sum.2 / (N : ℝ)) else sum)

/-- Chebyshev branch of `window_generate_gpu` (lines 495-547): frequency
domain construction, DFT, rearrangement into symmetric order,
normalisation by the maximum, truncation in periodic mode. -/
noncomputable def cheb_window (M : ℕ) (fftbins : Bool) (at0 : ℝ) : List ℝ :=
  let Mx := if fftbins then M + 1 else M
  let order : ℝ := (Mx : ℝ) - 1
  let beta := cosh_d ((1 / order) * acosh_d ((10 : ℝ) ^ (|at0| / 20)))
  let npi := kPi / (Mx : ℝ)
  let odd := Mx % 2 = 1
  let p := (List.range Mx).map (fun i =>
    let xx := beta * Real.cos ((i : ℝ) * npi)
    let real0 : ℝ :=
      if 1 < xx then cosh_d (order * acosh_d xx)
      else if xx < -1 then (if odd then 1 else -1) * cosh_d (order * acosh_d (-xx))
      else Real.cos (order * Real.arccos xx)
    if odd then (real0, 0)
    else (real0 * Real.cos ((i : ℝ) * npi), real0 * Real.sin ((i : ℝ) * npi)))
  let wfull := (dft p false).map Prod.fst
  let w :=
    if odd then
      let n := (Mx + 1) / 2
      ((List.range (n - 1)).map (fun idx => wfull.getD (n - 1 - idx) 0)) ++
        ((List.range n).map (fun idx => wfull.getD idx 0))
    else
      let n := Mx / 2 + 1
      ((List.range (n - 1)).map (fun idx => wfull.getD (n - 1 - idx) 0)) ++
        ((List.range (n - 1)).map (fun idx => wfull.getD (idx + 1) 0))
  let wmax0 := w.foldl (fun acc v => if acc < v then v else acc) 0
  let wmax := if wmax0 = 0 then 1 else wmax0
  let wnorm := w.map (fun v => v / wmax)
  if fftbins then wnorm.take M else wnorm

/-- Taylor coefficients `F_m` (lines 550-582). -/
noncomputable def taylor_coeffs (nbar0 : Int) (sll : ℝ) : List ℝ :=
  let nbar := if nbar0 < 1 then 1 else nbar0
  let B := (10 : ℝ) ^ (sll / 20)
  let A := acosh_d B / kPi
  let s2 := ((nbar : ℝ) * (nbar : ℝ)) / (A * A + ((nbar : ℝ) - 0.5) * ((nbar : ℝ) - 0.5))
  let mcount := (nbar - 1).toNat
  (List.range mcount).map (fun (mi : ℕ) =>
    let m : ℝ := (mi : ℝ) + 1
    let numer_sign : ℝ := if mi % 2 = 0 then 1 else -1
    let numer := (List.range mcount).foldl (fun acc kk =>
      acc * (1 - (m * m) / (s2 * (A * A + (((kk : ℝ) + 1) - 0.5) * (((kk : ℝ) + 1) - 0.5)))))
      1
    let denom1 := (List.range mi).foldl (fun acc kk =>
      acc * (1 - (m * m) / (((kk : ℝ) + 1) * ((kk : ℝ) + 1)))) 1
    let denom := (List.range (mcount - (mi + 1))).foldl (fun acc kk =>
      acc * (1 - (m * m) / ((((kk + mi + 1 : ℕ) : ℝ) + 1) * (((kk + mi + 1 : ℕ) : ℝ) + 1))))
      denom1
    numer_sign * numer / (2 * denom))

/-- `window_generate_gpu` (lines 490-667), with the backend's pure kernels
embedded.  The backend-failure paths (`cl_init`, buffer allocation,
enqueue failures) return `false` in the source and produce no output; the
claims quantify over produced outputs, so they are not modelled here. -/
noncomputable def window_generate (name : String) (M : ℕ) (fftbins : Bool) : List ℝ :=
  let spec := window_spec_from_name name
  if spec.use_cheb then cheb_window M fftbins spec.cheb_at
  else if spec.use_taylor then
    let Fm := taylor_coeffs spec.taylor_nbar spec.taylor_sll
    let Mout := if fftbins then M + 1 else M
    let tmp := (List.range Mout).map
      (win_core 21 Mout [if spec.taylor_norm then 1 else 0] Fm)
    if fftbins then tmp.take M else tmp
  else
    let Mout := if fftbins then M + 1 else M
    let tmp := (List.range Mout).map (win_core spec.type Mout spec.params spec.coeffs)
    if fftbins then tmp.take M else tmp

/- Helper lemmas about `next_pow2`. -/

theorem next_pow2_loop_pow (fuel : Nat) (p n : Int) (k : Nat) (hp : p = 2 ^ k)
    (hk : p ≤ 2 ^ 30) :
    ∃ j : Nat, next_pow2_loop fuel p n = 2 ^ j ∧ next_pow2_loop fuel p n ≤ 2 ^ 30 := by
  induction fuel generalizing p k with
  | zero => exact ⟨k, hp, hk⟩
  | succ m ih =>
    rw [next_pow2_loop]
    split
    · rename_i h
      have h2 : p * 2 = 2 ^ (k + 1) := by rw [hp]; ring
      have hb : p * 2 ≤ 2 ^ 30 := by
        -- p = 2^k < 2^30 and p is a power of two, so 2*p ≤ 2^30
        have hklt : (2 : Int) ^ k < 2 ^ 30 := hp ▸ h.2
        have hk30 : k < 30 := by
          by_contra hge
          push_neg at hge
          exact absurd (pow_le_pow_right₀ (by norm_num) hge) (not_le.mpr hklt)
        calc p * 2 = 2 ^ (k + 1) := h2
          _ ≤ 2 ^ 30 := pow_le_pow_right₀ (by norm_num) (by omega)
      exact ih (p * 2) (k + 1) h2 hb
    · exact ⟨k, hp, hk⟩

theorem next_pow2_loop_exit (fuel : Nat) (p n : Int) (hp : 0 < p)
    (hfuel : (2 : Int) ^ 30 ≤ p * 2 ^ fuel) :
    ¬(next_pow2_loop fuel p n < n ∧ next_pow2_loop fuel p n < 2 ^ 30) := by
  induction fuel generalizing p with
  | zero =>
    simp only [next_pow2_loop]
    simp only [pow_zero, mul_one] at hfuel
    intro h
    exact absurd hfuel (not_le.mpr h.2)
  | succ m ih =>
    rw [next_pow2_loop]
    split
    · rename_i h
      apply ih (p * 2) (by positivity)
      calc (2 : Int) ^ 30 ≤ p * 2 ^ (m + 1) := hfuel
        _ = p * 2 * 2 ^ m := by ring
    · rename_i h
      exact h

/-- The fuel of 31 in `next_pow2` always reaches the `while` loop's exit
condition, so the fueled embedding computes what the source loop computes. -/
theorem next_pow2_loop_fix (n : Int) :
    ¬(next_pow2 n < n ∧ next_pow2 n < 2 ^ 30) := by
  apply next_pow2_loop_exit 31 1 n one_pos
  norm_num

/-- `next_pow2` always returns a power of two, and that power is at most
`2^30`. -/
theorem next_pow2_pow (n : Int) :
    ∃ j : Nat, next_pow2 n = 2 ^ j ∧ next_pow2 n ≤ 2 ^ 30 := by
  exact next_pow2_loop_pow 31 1 n 0 (by norm_num) (by norm_num)

/-- For arguments at most `2^30` (in particular for every value the engine
ever passes), `next_pow2 n ≥ n`. -/
theorem next_pow2_ge (n : Int) (hn : n ≤ 2 ^ 30) : n ≤ next_pow2 n := by
  rcases lt_or_le (next_pow2 n) n with h | h
  · exact absurd ⟨h, lt_of_lt_of_le h hn⟩ (next_pow2_loop_fix n)
  · exact h

/-- `is_pow2` accepts every power of two up to `2^30`. -/
theorem is_pow2_two_pow (j : Nat) (hj : j ≤ 30) : is_pow2 (2 ^ j) = true := by
  interval_cases j <;> decide

/-- `next_pow2` output always satisfies `is_pow2`. -/
theorem is_pow2_next_pow2 (n : Int) : is_pow2 (next_pow2 n) = true := by
  obtain ⟨j, hj, hle⟩ := next_pow2_pow n
  have hj30 : j ≤ 30 := by
    by_contra hgt
    push_neg at hgt
    have : (2 : Int) ^ 30 < 2 ^ j := by
      exact pow_lt_pow_right₀ (by norm_num) hgt
    omega
  rw [hj]
  exact is_pow2_two_pow j hj30

/-- C7 counterexample: the source loop caps the accumulator at `1 << 30`,
so for the representable `int` input `n = 2^30 + 1` the result `2^30` is
strictly below `n`, refuting "for every integer n, next_pow2(n) ≥ n". -/
theorem C7_counterexample :
    next_pow2 (2 ^ 30 + 1) = 2 ^ 30 ∧ ¬((2 : Int) ^ 30 + 1 ≤ next_pow2 (2 ^ 30 + 1)) := by
  constructor
  · decide
  · decide

/-- C7 (amended): for every `n ≤ 2^30`, `next_pow2 n` is at least `n`; for
every `n` the result is a power of two; and `next_pow2 (2^k) = 2^k` for
every exponent `k ≤ 30` (the representable powers of two an `int` can hold
up to the loop cap). -/
theorem C7_next_pow2_correct :
    (∀ n : Int, n ≤ 2 ^ 30 → n ≤ next_pow2 n) ∧
    (∀ n : Int, ∃ j : Nat, next_pow2 n = 2 ^ j) ∧
    (∀ k : Nat, k ≤ 30 → next_pow2 (2 ^ k) = 2 ^ k) := by
  refine ⟨fun n hn => next_pow2_ge n hn,
          fun n => ⟨(next_pow2_pow n).choose, (next_pow2_pow n).choose_spec.1⟩, ?_⟩
  intro k hk
  interval_cases k <;> decide

/-- Witness for `C7_next_pow2_correct` at concrete inputs. -/
theorem C7_next_pow2_correct_witness :
    ((5 : Int) ≤ 2 ^ 30 ∧ (5 : Int) ≤ next_pow2 5) ∧ (4 ≤ 30 ∧ next_pow2 (2 ^ 4) = 2 ^ 4) :=
  ⟨⟨by decide, C7_next_pow2_correct.1 5 (by decide)⟩,
   ⟨by decide, C7_next_pow2_correct.2.2 4 (by decide)⟩⟩

/-- C4 counterexample: a periodogram call with a user-supplied odd NFFT
(`nfft = 5` on a length-5 input) gets transform length `next_pow2 5 = 8`,
which is a power of two, so the scalar DFT fallback is NOT taken there;
whereas the Chebyshev window construction (the claim excludes it) hands
`fft_execute_single` the non-power-of-two length `M + 1 = 6` in periodic
mode, which DOES take the DFT fallback. -/
theorem C4_counterexample :
    is_pow2 (periodogram_nfft_eff 5 5) = true ∧
    fft_single_uses_dft (periodogram_nfft_eff 5 5) = false ∧
    fft_single_uses_dft (cheb_fft_len 5 true) = true := by
  refine ⟨by decide, by decide, by decide⟩

/-- C4 (amended): the transform length chosen by `gpu_periodogram` and by
`gpu_stft` is always a power of two (they use the batched FFT, which has no
DFT branch at all), so neither the periodogram nor the STFT main transform
can invoke the naive DFT; the DFT fallback of `fft_execute_single` is
reachable only through the Chebyshev window construction, e.g. at length
`M = 5` in symmetric mode or `M + 1 = 6` in periodic mode. -/
theorem C4_dft_reachability :
    (∀ nfft N : Int, is_pow2 (periodogram_nfft_eff nfft N) = true) ∧
    (∀ nperseg noverlap nfft N : Int, is_pow2 (stft_nfft_eff nperseg noverlap nfft N) = true) ∧
    fft_single_uses_dft (cheb_fft_len 5 false) = true ∧
    fft_single_uses_dft (cheb_fft_len 5 true) = true := by
  refine ⟨fun nfft N => is_pow2_next_pow2 _,
          fun nperseg noverlap nfft N => is_pow2_next_pow2 _,
          by decide, by decide⟩

/-- If the guard is already false the fold is the identity at any fuel. -/
theorem wrap_fold_of_le (n : Nat) (d : ℝ) (h : d ≤ kPi) : wrap_fold n d = d := by
  cases n with
  | zero => rfl
  | succ m => rw [wrap_fold, if_neg (not_lt.mpr h)]

/-- C3 counterexample: when the price period is 0 (and the wave period is
5), the code sets `syncPct = 0` and therefore `dSync = 100 - 0 = 100`,
refuting the claim that *both* `syncPct` and `dSync` are 0 in that case. -/
theorem C3_counterexample :
    syncPct_of 0 5 0 0 = 0 ∧ dSync_of 0 5 0 0 = 100 ∧ dSync_of 0 5 0 0 ≠ 0 := by
  have hs : syncPct_of 0 5 0 0 = 0 := by
    unfold syncPct_of syncPct_raw clamp_lo clamp_hi
    norm_num
  refine ⟨hs, ?_, ?_⟩
  · unfold dSync_of
    rw [hs]
    norm_num
  · unfold dSync_of
    rw [hs]
    norm_num

/-- C3 (amended): `syncPct` always lies in `[0, 100]` and `dSync` always
equals `100 - syncPct`; when both dominant periods are positive, `syncPct`
is `100·(1 - phase_diff/π)` clamped to `[0, 100]`; when either period is 0,
`syncPct` is 0 and `dSync` is 100 (not 0 as the spec claims). -/
theorem C3_sync_fields :
    (∀ perP perW phP phW : ℝ,
      0 ≤ syncPct_of perP perW phP phW ∧ syncPct_of perP perW phP phW ≤ 100 ∧
      dSync_of perP perW phP phW = 100 - syncPct_of perP perW phP phW ∧
      0 ≤ dSync_of perP perW phP phW ∧ dSync_of perP perW phP phW ≤ 100) ∧
    (∀ perP perW phP phW : ℝ, 0 < perP → 0 < perW →
      syncPct_of perP perW phP phW =
        min 100 (max 0 (100 * (1 - phase_diff_of phP phW / kPi)))) ∧
    (∀ perP perW phP phW : ℝ, perP = 0 ∨ perW = 0 →
      syncPct_of perP perW phP phW = 0 ∧ dSync_of perP perW phP phW = 100) := by
  have hlo : ∀ x : ℝ, clamp_lo x = max 0 x := by
    intro x
    unfold clamp_lo
    rcases lt_or_le x 0 with h | h
    · rw [if_pos h, max_eq_left h.le]
    · rw [if_neg (not_lt.mpr h), max_eq_right h]
  have hhi : ∀ x : ℝ, clamp_hi x = min 100 x := by
    intro x
    unfold clamp_hi
    rcases lt_or_le (100 : ℝ) x with h | h
    · rw [if_pos h, min_eq_left h.le]
    · rw [if_neg (not_lt.mpr h), min_eq_right h]
  have hbounds : ∀ perP perW phP phW : ℝ,
      0 ≤ syncPct_of perP perW phP phW ∧ syncPct_of perP perW phP phW ≤ 100 := by
    intro perP perW phP phW
    unfold syncPct_of
    rw [hlo, hhi]
    constructor
    · exact le_min (by norm_num) (le_max_left 0 _)
    · exact min_le_left 100 _
  refine ⟨?_, ?_, ?_⟩
  · intro perP perW phP phW
    obtain ⟨h0, h100⟩ := hbounds perP perW phP phW
    refine ⟨h0, h100, rfl, ?_, ?_⟩
    · unfold dSync_of; linarith
    · unfold dSync_of; linarith
  · intro perP perW phP phW hP hW
    unfold syncPct_of
    rw [hlo, hhi]
    unfold syncPct_raw
    rw [if_pos ⟨hP, hW⟩]
  · intro perP perW phP phW hz
    have hs : syncPct_of perP perW phP phW = 0 := by
      unfold syncPct_of syncPct_raw
      have hne : ¬(0 < perP ∧ 0 < perW) := by
        rcases hz with h | h <;> rw [h] <;> simp
      rw [if_neg hne]
      unfold clamp_lo clamp_hi
      norm_num
    exact ⟨hs, by unfold dSync_of; rw [hs]; norm_num⟩

/-- Witness for `C3_sync_fields` at concrete inputs. -/
theorem C3_sync_fields_witness :
    (syncPct_of 1 1 0 0 = min 100 (max 0 (100 * (1 - phase_diff_of 0 0 / kPi)))) ∧
    (syncPct_of 0 1 0 0 = 0 ∧ dSync_of 0 1 0 0 = 100) :=
  ⟨C3_sync_fields.2.1 1 1 0 0 one_pos one_pos,
   C3_sync_fields.2.2 0 1 0 0 (Or.inl rfl)⟩

/-- C9: for phases in `[-π, π]` (the range of `atan2`), the folding loop
terminates — one iteration already reaches a fixpoint: any extra fuel
returns the same value — and the final value lies in `[0, π]`. -/
theorem C9_wrap_terminates :
    ∀ phP phW : ℝ, -kPi ≤ phP → phP ≤ kPi → -kPi ≤ phW → phW ≤ kPi →
      (∀ n : Nat, wrap_fold (n + 1) |phP - phW| = wrap_fold 1 |phP - phW|) ∧
      0 ≤ wrap_fold 1 |phP - phW| ∧ wrap_fold 1 |phP - phW| ≤ kPi := by
  intro phP phW h1 h2 h3 h4
  set d : ℝ := |phP - phW| with hd
  have hpi : (0 : ℝ) < kPi := Real.pi_pos
  have hub : d ≤ 2 * kPi := by
    rw [hd, abs_sub_le_iff]
    constructor <;> linarith
  have hlb : 0 ≤ d := abs_nonneg _
  rcases le_or_lt d kPi with hle | hgt
  · refine ⟨fun n => by rw [wrap_fold_of_le _ _ hle, wrap_fold_of_le _ _ hle], ?_, ?_⟩
    · rw [wrap_fold_of_le _ _ hle]; exact hlb
    · rw [wrap_fold_of_le _ _ hle]; exact hle
  · have hstep : |d - 2 * kPi| ≤ kPi := by
      rw [abs_sub_le_iff]
      constructor <;> linarith
    have hone : wrap_fold 1 d = |d - 2 * kPi| := by
      rw [wrap_fold, if_pos hgt, wrap_fold]
    refine ⟨fun n => ?_, ?_, ?_⟩
    · rw [show n + 1 = n + 1 from rfl, wrap_fold, if_pos hgt, wrap_fold_of_le _ _ hstep, hone]
    · rw [hone]; exact abs_nonneg _
    · rw [hone]; exact hstep

/-- Witness for `C9_wrap_terminates` at the concrete phases `π` and `-π`. -/
theorem C9_wrap_terminates_witness :
    (∀ n : Nat, wrap_fold (n + 1) |kPi - -kPi| = wrap_fold 1 |kPi - -kPi|) ∧
    0 ≤ wrap_fold 1 |kPi - -kPi| ∧ wrap_fold 1 |kPi - -kPi| ≤ kPi := by
  have hpi : (0 : ℝ) < kPi := Real.pi_pos
  exact C9_wrap_terminates kPi (-kPi) (by linarith) le_rfl le_rfl (by linarith)

/- Association-list lemmas for the per-key context map. -/

theorem ctxFind_update_self (m : List (Int × Context)) (k : Int) (f : Context → Context) :
    ctxFind (ctxUpdate m k f) k = some (f ((ctxFind m k).getD Context.fresh)) := by
  induction m with
  | nil => simp [ctxFind, ctxUpdate]
  | cons kc rest ih =>
    obtain ⟨k0, c⟩ := kc
    by_cases h : k0 = k
    · subst h
      simp [ctxFind, ctxUpdate]
    · simp [ctxFind, ctxUpdate, h, ih]

theorem ctxFind_update_ne (m : List (Int × Context)) (k q : Int) (f : Context → Context)
    (h : q ≠ k) : ctxFind (ctxUpdate m k f) q = ctxFind m q := by
  induction m with
  | nil =>
    simp only [ctxUpdate, ctxFind]
    rw [if_neg (fun hh => h hh.symm)]
  | cons kc rest ih =>
    obtain ⟨k0, c⟩ := kc
    by_cases h0 : k0 = k
    · subst h0
      have : k0 ≠ q := fun hh => h hh.symm
      simp [ctxFind, ctxUpdate, this]
    · simp only [ctxUpdate, if_neg h0, ctxFind]
      by_cases h1 : k0 = q
      · simp [h1]
      · simp [h1, ih]

theorem ctxOk_eq (m : List (Int × Context)) (k : Int) :
    ctxOk m k = ((ctxFind m k).getD Context.fresh).jobs_ok := by
  unfold ctxOk
  cases ctxFind m k <;> simp [Context.fresh]

theorem ctxDrop_eq (m : List (Int × Context)) (k : Int) :
    ctxDrop m k = ((ctxFind m k).getD Context.fresh).jobs_drop := by
  unfold ctxDrop
  cases ctxFind m k <;> simp [Context.fresh]

theorem ctxSeq_eq (m : List (Int × Context)) (k : Int) :
    ctxSeq m k = ((ctxFind m k).getD Context.fresh).seq := by
  unfold ctxSeq
  cases ctxFind m k <;> simp [Context.fresh]

/- Step-level characterisations of the submit / take / deposit events. -/

/-- A valid submit against a full queue: pop the oldest, bump `jobs_drop`
on the incoming key, append at the tail, return 1. -/
theorem SCL_Submit_step_full (s : EngineState) (key bt : Int) (price wave : List ℝ)
    (wmin wmax nfft det : Int) (minp maxp : ℝ) (flags : Int)
    (hstop : s.stop = false) (hp : price ≠ []) (hw : wave ≠ [])
    (hfull : kQueueMax ≤ s.jobs.length) :
    SCL_Submit_step s key bt price wave wmin wmax nfft det minp maxp flags =
      ({ s with
          jobs := s.jobs.tail ++ [⟨key, bt, price, wave, wmin, wmax, nfft, det, minp, maxp, flags⟩]
          ctxs := ctxUpdate s.ctxs key (fun c => { c with jobs_drop := c.jobs_drop + 1 }) },
       1) := by
  simp [SCL_Submit_step, hstop, hfull, List.length_eq_zero]
  exact ⟨hp, hw⟩

/-- A valid submit against a non-full queue: append at the tail, return 1. -/
theorem SCL_Submit_step_notfull (s : EngineState) (key bt : Int) (price wave : List ℝ)
    (wmin wmax nfft det : Int) (minp maxp : ℝ) (flags : Int)
    (hstop : s.stop = false) (hp : price ≠ []) (hw : wave ≠ [])
    (hfull : s.jobs.length < kQueueMax) :
    SCL_Submit_step s key bt price wave wmin wmax nfft det minp maxp flags =
      ({ s with
          jobs := s.jobs ++ [⟨key, bt, price, wave, wmin, wmax, nfft, det, minp, maxp, flags⟩] },
       1) := by
  simp [SCL_Submit_step, hstop, not_le.mpr hfull, List.length_eq_zero]
  exact ⟨hp, hw⟩

theorem runLog_nil (gpu : GpuOracle) (s : EngineState) : runLog gpu s [] = (s, []) := rfl

theorem runLog_cons (gpu : GpuOracle) (s : EngineState) (e : Event) (es : List Event) :
    runLog gpu s (e :: es) =
      ((runLog gpu (stepEv gpu s e).1 es).1,
       (stepEv gpu s e).2 :: (runLog gpu (stepEv gpu s e).1 es).2) := rfl

theorem run_cons (gpu : GpuOracle) (s : EngineState) (e : Event) (es : List Event) :
    run gpu s (e :: es) = run gpu (stepEv gpu s e).1 es := rfl

/-- One event never pushes the queue length past the cap. -/
theorem stepEv_cap (gpu : GpuOracle) (s : EngineState) (e : Event)
    (h : s.jobs.length ≤ kQueueMax) : (stepEv gpu s e).1.jobs.length ≤ kQueueMax := by
  cases e with
  | submit k bt p w wmin wmax nfft det minp maxp flags =>
    simp only [stepEv]
    unfold SCL_Submit_step
    split
    · exact h
    · split
      · exact h
      · dsimp only
        split
        · rename_i hfull
          simp only [List.length_append, List.length_tail, List.length_cons,
            List.length_nil, kQueueMax] at hfull h ⊢
          omega
        · rename_i hnf
          push_neg at hnf
          simp only [List.length_append, List.length_cons, List.length_nil,
            kQueueMax] at hnf h ⊢
          omega
  | take =>
    simp only [stepEv]
    unfold worker_take
    split
    · exact h
    · split
      · rename_i j rest heq1 heq2
        simp only []
        rw [heq2] at h
        simp only [List.length_cons] at h
        simpa using Nat.le_of_succ_le (Nat.succ_le_succ (Nat.le_of_succ_le_succ h))
      · exact h
  | deposit ms =>
    simp only [stepEv]
    unfold worker_deposit
    split
    · exact h
    · exact h

/-- The queue never exceeds the cap on any run from the fresh state. -/
theorem run_cap (gpu : GpuOracle) (events : List Event) (s : EngineState)
    (h : s.jobs.length ≤ kQueueMax) : (run gpu s events).jobs.length ≤ kQueueMax := by
  induction events generalizing s with
  | nil => exact h
  | cons e es ih =>
    rw [run_cons]
    exact ih _ (stepEv_cap gpu s e h)

/-- C1: a valid `SCL_Submit` call arriving while the queue already holds
256 pending jobs evicts the oldest pending job (the queue head), appends
the new job at the tail, increments `jobs_drop` on the incoming key's
`Context` (creating the `Context` when absent), and still returns 1; and
on every run from the fresh state the queue length never exceeds 256. -/
theorem C1_queue_overflow :
    (∀ (s : EngineState) (key bt : Int) (price wave : List ℝ)
        (wmin wmax nfft det : Int) (minp maxp : ℝ) (flags : Int),
      s.stop = false → price ≠ [] → wave ≠ [] → s.jobs.length = kQueueMax →
      (SCL_Submit_step s key bt price wave wmin wmax nfft det minp maxp flags).2 = 1 ∧
      (SCL_Submit_step s key bt price wave wmin wmax nfft det minp maxp flags).1.jobs =
        s.jobs.tail ++ [⟨key, bt, price, wave, wmin, wmax, nfft, det, minp, maxp, flags⟩] ∧
      (SCL_Submit_step s key bt price wave wmin wmax nfft det minp maxp
        flags).1.jobs.length = kQueueMax ∧
      ctxDrop (SCL_Submit_step s key bt price wave wmin wmax nfft det minp maxp
        flags).1.ctxs key = ctxDrop s.ctxs key + 1 ∧
      (ctxFind (SCL_Submit_step s key bt price wave wmin wmax nfft det minp maxp
        flags).1.ctxs key).isSome = true) ∧
    (∀ (gpu : GpuOracle) (events : List Event),
      (run gpu init0 events).jobs.length ≤ kQueueMax) := by
  constructor
  · intro s key bt price wave wmin wmax nfft det minp maxp flags hstop hp hw hlen
    rw [SCL_Submit_step_full s key bt price wave wmin wmax nfft det minp maxp flags
      hstop hp hw (le_of_eq hlen.symm)]
    have hne : s.jobs ≠ [] := by
      intro hnil
      rw [hnil] at hlen
      simp [kQueueMax] at hlen
    refine ⟨rfl, rfl, ?_, ?_, ?_⟩
    · simp only [List.length_append, List.length_tail, List.length_cons, List.length_nil]
      have : 0 < s.jobs.length := List.length_pos.mpr hne
      omega
    · rw [ctxDrop_eq, ctxDrop_eq, ctxFind_update_self]
      simp
    · rw [ctxFind_update_self]
      rfl
  · intro gpu events
    exact run_cap gpu events init0 (by simp [init0, kQueueMax])

/-- Witness for `C1_queue_overflow` at a concrete full-queue state. -/
theorem C1_queue_overflow_witness :
    ((SCL_Submit_step c1State 2 0 [0] [0] 1 0 0 0 0 0 0).2 = 1 ∧
     (SCL_Submit_step c1State 2 0 [0] [0] 1 0 0 0 0 0 0).1.jobs =
       c1State.jobs.tail ++ [⟨2, 0, [0], [0], 1, 0, 0, 0, 0, 0, 0⟩] ∧
     (SCL_Submit_step c1State 2 0 [0] [0] 1 0 0 0 0 0 0).1.jobs.length = kQueueMax ∧
     ctxDrop (SCL_Submit_step c1State 2 0 [0] [0] 1 0 0 0 0 0 0).1.ctxs 2 =
       ctxDrop c1State.ctxs 2 + 1 ∧
     (ctxFind (SCL_Submit_step c1State 2 0 [0] [0] 1 0 0 0 0 0 0).1.ctxs 2).isSome = true) ∧
    (run gpuNone init0 []).jobs.length ≤ kQueueMax :=
  ⟨C1_queue_overflow.1 c1State 2 0 [0] [0] 1 0 0 0 0 0 0 rfl (by simp) (by simp)
    (by simp [c1State]),
   C1_queue_overflow.2 gpuNone []⟩

/-- `compute_job` leaves the zero result in place on degenerate input
(empty price or wave, or usable width below `window_min`). -/
theorem compute_job_degenerate (gpu : GpuOracle) (job : Job)
    (h : min (job.price.length : Int) (job.wave.length : Int) ≤ 0 ∨
      min job.window_max (min (job.price.length : Int) (job.wave.length : Int)) <
        job.window_min) :
    compute_job gpu job = ⟨job.bar_time, 0, zeroOut⟩ := by
  unfold compute_job
  dsimp only
  by_cases hN : min (job.price.length : Int) (job.wave.length : Int) ≤ 0
  · rw [if_pos hN]
  · rcases h with h | h
    · exact absurd h hN
    · rw [if_neg hN, if_pos h]

/-- `compute_job` leaves the zero result in place when the price-stream
periodogram fails. -/
theorem compute_job_gpu_fail (gpu : GpuOracle) (job : Job)
    (hN : 0 < min (job.price.length : Int) (job.wave.length : Int))
    (hW : job.window_min ≤
      min job.window_max (min (job.price.length : Int) (job.wave.length : Int)))
    (hgpu : gpu (job.price.take (min job.window_max (min (job.price.length : Int)
      (job.wave.length : Int))).toNat) job.nfft job.detrend = none) :
    compute_job gpu job = ⟨job.bar_time, 0, zeroOut⟩ := by
  unfold compute_job
  dsimp only
  rw [if_neg (not_le.mpr hN), if_neg (not_lt.mpr hW), hgpu]

/-- The deposit step with a job in flight, written out. -/
theorem worker_deposit_some (gpu : GpuOracle) (s : EngineState) (job : Job) (ms : ℝ)
    (hin : s.inflight = some job) :
    worker_deposit gpu s ms =
      ({ s with
          inflight := none
          ctxs := ctxUpdate s.ctxs job.key (fun c =>
            { c with
              seq := c.seq + 1
              last_ms := ms
              jobs_ok := c.jobs_ok + 1
              ring := { compute_job gpu job with seq := c.seq + 1 } ::
                (if kRingMax ≤ c.ring.length then c.ring.dropLast else c.ring) }) },
       some (job.key, ctxSeq s.ctxs job.key + 1)) := by
  unfold worker_deposit
  rw [hin]

/-- C5: depositing a job whose usable width `W = min(|price|, |wave|,
window_max)` is below `window_min`, or whose price or wave is empty,
publishes a `Result` whose 12 double fields are all zero at the ring
front, and still consumes a `seq`: the per-key counter is incremented and
the new value is assigned to the deposited `Result`. -/
theorem C5_degenerate_result :
    ∀ (gpu : GpuOracle) (s : EngineState) (job : Job) (ms : ℝ),
      s.inflight = some job →
      (min (job.price.length : Int) (job.wave.length : Int) ≤ 0 ∨
        min job.window_max (min (job.price.length : Int) (job.wave.length : Int)) <
          job.window_min) →
      zeroOut = List.replicate 12 0 ∧
      ∃ c, ctxFind (worker_deposit gpu s ms).1.ctxs job.key = some c ∧
        c.ring.head? = some ⟨job.bar_time, ctxSeq s.ctxs job.key + 1, zeroOut⟩ ∧
        c.seq = ctxSeq s.ctxs job.key + 1 ∧
        (worker_deposit gpu s ms).2 = some (job.key, ctxSeq s.ctxs job.key + 1) := by
  intro gpu s job ms hin hdeg
  refine ⟨rfl, ?_⟩
  rw [worker_deposit_some gpu s job ms hin]
  rw [ctxFind_update_self]
  refine ⟨_, rfl, ?_, ?_, rfl⟩
  · rw [compute_job_degenerate gpu job hdeg]
    rw [ctxSeq_eq]
    rfl
  · rw [ctxSeq_eq]

/-- Witness for `C5_degenerate_result` at a concrete degenerate job. -/
theorem C5_degenerate_result_witness :
    zeroOut = List.replicate 12 0 ∧
    ∃ c, ctxFind (worker_deposit gpuNone ⟨[], [], some (subJob 1), false⟩ 0).1.ctxs
        (subJob 1).key = some c ∧
      c.ring.head? = some ⟨(subJob 1).bar_time,
        ctxSeq (⟨[], [], some (subJob 1), false⟩ : EngineState).ctxs (subJob 1).key + 1,
        zeroOut⟩ ∧
      c.seq = ctxSeq (⟨[], [], some (subJob 1), false⟩ : EngineState).ctxs
        (subJob 1).key + 1 ∧
      (worker_deposit gpuNone ⟨[], [], some (subJob 1), false⟩ 0).2 =
        some ((subJob 1).key,
          ctxSeq (⟨[], [], some (subJob 1), false⟩ : EngineState).ctxs (subJob 1).key + 1) :=
  C5_degenerate_result gpuNone ⟨[], [], some (subJob 1), false⟩ (subJob 1) 0 rfl
    (Or.inr (by simp [subJob]))

/-- C10: depositing a non-degenerate job whose price-stream periodogram
fails (backend unavailable or kernel enqueue failure) still publishes an
all-zero `Result`, increments `jobs_ok` (not `jobs_drop`), and consumes a
`seq`; the published `Result` is identical to the one a degenerate job
with the same `bar_time` produces, so the two are indistinguishable at
the query API. -/
theorem C10_backend_failure :
    ∀ (gpu : GpuOracle) (s : EngineState) (job : Job) (ms : ℝ),
      s.inflight = some job →
      0 < min (job.price.length : Int) (job.wave.length : Int) →
      job.window_min ≤
        min job.window_max (min (job.price.length : Int) (job.wave.length : Int)) →
      gpu (job.price.take (min job.window_max (min (job.price.length : Int)
        (job.wave.length : Int))).toNat) job.nfft job.detrend = none →
      ∃ c, ctxFind (worker_deposit gpu s ms).1.ctxs job.key = some c ∧
        c.ring.head? = some ⟨job.bar_time, ctxSeq s.ctxs job.key + 1, zeroOut⟩ ∧
        c.seq = ctxSeq s.ctxs job.key + 1 ∧
        c.jobs_ok = ctxOk s.ctxs job.key + 1 ∧
        c.jobs_drop = ctxDrop s.ctxs job.key ∧
        compute_job gpu job = compute_job gpu { job with price := [], wave := [] } := by
  intro gpu s job ms hin hN hW hgpu
  rw [worker_deposit_some gpu s job ms hin]
  rw [ctxFind_update_self]
  refine ⟨_, rfl, ?_, ?_, ?_, ?_, ?_⟩
  · rw [compute_job_gpu_fail gpu job hN hW hgpu, ctxSeq_eq]
    rfl
  · rw [ctxSeq_eq]
  · rw [ctxOk_eq]
  · rw [ctxDrop_eq]
  · rw [compute_job_gpu_fail gpu job hN hW hgpu,
      compute_job_degenerate gpu { job with price := [], wave := [] } (Or.inl (by simp))]

/-- Witness for `C10_backend_failure` at a concrete job and the
always-failing oracle. -/
theorem C10_backend_failure_witness :
    ∃ c, ctxFind (worker_deposit gpuNone
        ⟨[], [], some ⟨1, 0, [0], [0], 0, 1, 0, 0, 0, 0, 0⟩, false⟩ 0).1.ctxs
        (⟨1, 0, [0], [0], 0, 1, 0, 0, 0, 0, 0⟩ : Job).key = some c ∧
      c.ring.head? = some ⟨(⟨1, 0, [0], [0], 0, 1, 0, 0, 0, 0, 0⟩ : Job).bar_time,
        ctxSeq ([] : List (Int × Context)) 1 + 1, zeroOut⟩ ∧
      c.seq = ctxSeq ([] : List (Int × Context)) 1 + 1 ∧
      c.jobs_ok = ctxOk ([] : List (Int × Context)) 1 + 1 ∧
      c.jobs_drop = ctxDrop ([] : List (Int × Context)) 1 ∧
      compute_job gpuNone ⟨1, 0, [0], [0], 0, 1, 0, 0, 0, 0, 0⟩ =
        compute_job gpuNone
          { (⟨1, 0, [0], [0], 0, 1, 0, 0, 0, 0, 0⟩ : Job) with price := [], wave := [] } :=
  C10_backend_failure gpuNone ⟨[], [], some ⟨1, 0, [0], [0], 0, 1, 0, 0, 0, 0, 0⟩, false⟩
    ⟨1, 0, [0], [0], 0, 1, 0, 0, 0, 0, 0⟩ 0 rfl (by simp) (by simp) rfl

/- Per-key `seq` evolution. -/

theorem ctxSeq_update_self (m : List (Int × Context)) (k : Int) (f : Context → Context) :
    ctxSeq (ctxUpdate m k f) k = (f ((ctxFind m k).getD Context.fresh)).seq := by
  rw [ctxSeq_eq, ctxFind_update_self]
  rfl

theorem ctxSeq_update_ne (m : List (Int × Context)) (k q : Int) (f : Context → Context)
    (h : q ≠ k) : ctxSeq (ctxUpdate m k f) q = ctxSeq m q := by
  rw [ctxSeq_eq, ctxSeq_eq, ctxFind_update_ne m k q f h]

theorem ctxSeq_update_drop (m : List (Int × Context)) (k q : Int) :
    ctxSeq (ctxUpdate m k (fun c => { c with jobs_drop := c.jobs_drop + 1 })) q =
      ctxSeq m q := by
  by_cases h : q = k
  · subst h
    rw [ctxSeq_update_self, ctxSeq_eq]
  · exact ctxSeq_update_ne m k q _ h

/-- Each event either records no deposit and leaves the key's `seq`
unchanged, records a deposit on a different key and leaves it unchanged,
or records a deposit on the key carrying exactly the incremented `seq`. -/
theorem stepEv_dep_cases (gpu : GpuOracle) (s : EngineState) (e : Event) (k : Int) :
    ((stepEv gpu s e).2.dep = none ∧
      ctxSeq (stepEv gpu s e).1.ctxs k = ctxSeq s.ctxs k) ∨
    (∃ k0 q, k0 ≠ k ∧ (stepEv gpu s e).2.dep = some (k0, q) ∧
      ctxSeq (stepEv gpu s e).1.ctxs k = ctxSeq s.ctxs k) ∨
    ((stepEv gpu s e).2.dep = some (k, ctxSeq s.ctxs k + 1) ∧
      ctxSeq (stepEv gpu s e).1.ctxs k = ctxSeq s.ctxs k + 1) := by
  cases e with
  | submit key bt p w wmin wmax nfft det minp maxp flags =>
    left
    refine ⟨rfl, ?_⟩
    simp only [stepEv]
    unfold SCL_Submit_step
    split
    · rfl
    · split
      · rfl
      · dsimp only
        split
        · exact ctxSeq_update_drop s.ctxs key k
        · rfl
  | take =>
    left
    refine ⟨rfl, ?_⟩
    simp only [stepEv]
    unfold worker_take
    split
    · rfl
    · split
      · rfl
      · rfl
  | deposit ms =>
    cases hin : s.inflight with
    | none =>
      left
      constructor
      · simp only [stepEv]
        unfold worker_deposit
        rw [hin]
      · simp only [stepEv]
        unfold worker_deposit
        rw [hin]
    | some job =>
      by_cases hk : job.key = k
      · subst hk
        right; right
        constructor
        · simp only [stepEv]
          rw [worker_deposit_some gpu s job ms hin]
        · simp only [stepEv]
          rw [worker_deposit_some gpu s job ms hin]
          dsimp only
          rw [ctxSeq_update_self, ctxSeq_eq]
      · right; left
        refine ⟨job.key, ctxSeq s.ctxs job.key + 1, hk, ?_, ?_⟩
        · simp only [stepEv]
          rw [worker_deposit_some gpu s job ms hin]
        · simp only [stepEv]
          rw [worker_deposit_some gpu s job ms hin]
          dsimp only
          exact ctxSeq_update_ne s.ctxs job.key k _ (fun hh => hk hh.symm)

theorem logSeqs_nil (k : Int) : logSeqs [] k = [] := rfl

theorem logSeqs_cons_none (o : Obs) (l : List Obs) (k : Int) (h : o.dep = none) :
    logSeqs (o :: l) k = logSeqs l k := by
  unfold logSeqs
  simp [List.filterMap_cons, h]

theorem logSeqs_cons_ne (o : Obs) (l : List Obs) (k k0 q : Int)
    (h : o.dep = some (k0, q)) (hne : k0 ≠ k) : logSeqs (o :: l) k = logSeqs l k := by
  unfold logSeqs
  simp [List.filterMap_cons, h, hne]

theorem logSeqs_cons_self (o : Obs) (l : List Obs) (k q : Int) (h : o.dep = some (k, q)) :
    logSeqs (o :: l) k = q :: logSeqs l k := by
  unfold logSeqs
  simp [List.filterMap_cons, h]

/-- Along any run, the deposited `seq`s for a key are pairwise increasing
and all exceed the key's `seq` counter at the start of the run. -/
theorem logSeqs_mono (gpu : GpuOracle) (k : Int) (events : List Event) :
    ∀ s : EngineState,
      List.Pairwise (fun a b => a < b) (logSeqs (runLog gpu s events).2 k) ∧
      (∀ q ∈ logSeqs (runLog gpu s events).2 k, ctxSeq s.ctxs k < q) := by
  induction events with
  | nil =>
    intro s
    simp [runLog_nil, logSeqs_nil]
  | cons e es ih =>
    intro s
    rw [runLog_cons]
    obtain ⟨hch, hbd⟩ := ih (stepEv gpu s e).1
    rcases stepEv_dep_cases gpu s e k with ⟨hdep, hseq⟩ | ⟨k0, q0, hne, hdep, hseq⟩ |
      ⟨hdep, hseq⟩
    · rw [logSeqs_cons_none _ _ _ hdep]
      exact ⟨hch, fun q hq => hseq ▸ hbd q hq⟩
    · rw [logSeqs_cons_ne _ _ _ _ _ hdep hne]
      exact ⟨hch, fun q hq => hseq ▸ hbd q hq⟩
    · rw [logSeqs_cons_self _ _ _ _ hdep]
      constructor
      · rw [List.pairwise_cons]
        exact ⟨fun b hb => hseq ▸ hbd b hb, hch⟩
      · intro q hq
        rcases List.mem_cons.mp hq with hq | hq
        · omega
        · have := hseq ▸ hbd q hq
          omega

theorem ctxOk_update_self (m : List (Int × Context)) (k : Int) (f : Context → Context) :
    ctxOk (ctxUpdate m k f) k = (f ((ctxFind m k).getD Context.fresh)).jobs_ok := by
  rw [ctxOk_eq, ctxFind_update_self]
  rfl

theorem ctxOk_update_ne (m : List (Int × Context)) (k q : Int) (f : Context → Context)
    (h : q ≠ k) : ctxOk (ctxUpdate m k f) q = ctxOk m q := by
  rw [ctxOk_eq, ctxOk_eq, ctxFind_update_ne m k q f h]

theorem ctxDrop_update_self (m : List (Int × Context)) (k : Int) (f : Context → Context) :
    ctxDrop (ctxUpdate m k f) k = (f ((ctxFind m k).getD Context.fresh)).jobs_drop := by
  rw [ctxDrop_eq, ctxFind_update_self]
  rfl

theorem ctxDrop_update_ne (m : List (Int × Context)) (k q : Int) (f : Context → Context)
    (h : q ≠ k) : ctxDrop (ctxUpdate m k f) q = ctxDrop m q := by
  rw [ctxDrop_eq, ctxDrop_eq, ctxFind_update_ne m k q f h]

theorem runLog_append (gpu : GpuOracle) (es1 es2 : List Event) :
    ∀ s : EngineState,
      runLog gpu s (es1 ++ es2) =
        ((runLog gpu (runLog gpu s es1).1 es2).1,
         (runLog gpu s es1).2 ++ (runLog gpu (runLog gpu s es1).1 es2).2) := by
  induction es1 with
  | nil => intro s; simp [runLog_nil]
  | cons e es ih =>
    intro s
    rw [List.cons_append, runLog_cons, runLog_cons, ih (stepEv gpu s e).1]
    simp

/-- Filling the queue: starting from `m` pending copies of the degenerate
key-1 job, `n` more accepted submits (with `m + n` below the cap) append
`n` more copies; every submit is accepted and no context is touched. -/
theorem runLog_fill (gpu : GpuOracle) (n : Nat) :
    ∀ m : Nat, m + n ≤ kQueueMax →
      runLog gpu ⟨List.replicate m (subJob 1), [], none, false⟩
          (List.replicate n (subEv 1)) =
        (⟨List.replicate (m + n) (subJob 1), [], none, false⟩,
         List.replicate n ⟨some (1, 1), none⟩) := by
  induction n with
  | zero => intro m hm; simp [runLog_nil]
  | succ n ih =>
    intro m hm
    rw [List.replicate_succ, runLog_cons]
    have hstep : stepEv gpu ⟨List.replicate m (subJob 1), [], none, false⟩ (subEv 1) =
        (⟨List.replicate (m + 1) (subJob 1), [], none, false⟩, ⟨some (1, 1), none⟩) := by
      simp only [stepEv, subEv]
      rw [SCL_Submit_step_notfull _ _ _ _ _ _ _ _ _ _ _ _ rfl (by simp) (by simp)
        (by simp only [List.length_replicate, kQueueMax] at hm ⊢; omega)]
      have hjobs : List.replicate m (subJob 1) ++ [(⟨1, 0, [0], [0], 1, 0, 0, 0, 0, 0, 0⟩ : Job)] =
          List.replicate (m + 1) (subJob 1) := by
        rw [List.replicate_succ' m (subJob 1)]
        rfl
      simp only [hjobs]
    rw [hstep]
    rw [ih (m + 1) (by omega)]
    have h1 : m + 1 + n = m + (n + 1) := by omega
    rw [h1]
    simp [List.replicate_succ]

/-- The overflow submit: with the queue already holding 256 key-1 jobs, a
valid submit on key 2 pops the oldest key-1 job, creates key 2's context
with `jobs_drop = 1`, appends the key-2 job at the tail, and is accepted. -/
theorem step_overflow (gpu : GpuOracle) :
    stepEv gpu ⟨List.replicate 256 (subJob 1), [], none, false⟩ (subEv 2) =
      (⟨List.replicate 255 (subJob 1) ++ [subJob 2], [(2, ⟨[], 0, 0, 1, 0⟩)], none, false⟩,
       ⟨some (2, 1), none⟩) := by
  simp only [stepEv, subEv]
  rw [SCL_Submit_step_full _ _ _ _ _ _ _ _ _ _ _ _ rfl (by simp) (by simp)
    (by rw [List.length_replicate]; exact le_rfl)]
  have htail : (List.replicate 256 (subJob 1)).tail = List.replicate 255 (subJob 1) := by
    rw [show (256 : Nat) = 255 + 1 from rfl, List.replicate_succ]
    rfl
  have hctx : ctxUpdate ([] : List (Int × Context)) 2
      (fun c => { c with jobs_drop := c.jobs_drop + 1 }) = [(2, ⟨[], 0, 0, 1, 0⟩)] := rfl
  simp only [htail, hctx]
  rfl

theorem logAccepted_nil (k : Int) : logAccepted [] k = 0 := rfl

theorem logAccepted_cons_none (o : Obs) (l : List Obs) (k : Int) (h : o.rc = none) :
    logAccepted (o :: l) k = logAccepted l k := by
  unfold logAccepted
  simp [List.filterMap_cons, h]

theorem logAccepted_cons_acc (o : Obs) (l : List Obs) (k : Int) (h : o.rc = some (k, 1)) :
    logAccepted (o :: l) k = logAccepted l k + 1 := by
  unfold logAccepted
  simp [List.filterMap_cons, h, List.countP_cons]

theorem logAccepted_append (l1 l2 : List Obs) (k : Int) :
    logAccepted (l1 ++ l2) k = logAccepted l1 k + logAccepted l2 k := by
  unfold logAccepted
  rw [List.filterMap_append, List.countP_append]

theorem logAccepted_replicate_acc (n : Nat) (k : Int) :
    logAccepted (List.replicate n ⟨some (k, 1), none⟩) k = n := by
  induction n with
  | zero => rfl
  | succ n ih =>
    rw [List.replicate_succ, logAccepted_cons_acc _ _ _ rfl, ih]

theorem worker_take_pop (s : EngineState) (j : Job) (rest : List Job)
    (hs : s.stop = false) (hi : s.inflight = none) (hj : s.jobs = j :: rest) :
    worker_take s = { s with jobs := rest, inflight := some j } := by
  unfold worker_take
  rw [hs, hi, hj]
  simp

/-- Draining the queue: with the worker idle and `L` pending, `|L|` rounds
of take-then-deposit empty the queue, increment `jobs_ok` once per job on
that job's key, never touch `jobs_drop`, and accept no submits. -/
theorem runLog_drain (gpu : GpuOracle) (L : List Job) :
    ∀ s : EngineState, s.jobs = L → s.inflight = none → s.stop = false →
      (runLog gpu s (List.replicate L.length drainPair).flatten).1.jobs = [] ∧
      (runLog gpu s (List.replicate L.length drainPair).flatten).1.inflight = none ∧
      (∀ k : Int,
        ctxOk (runLog gpu s (List.replicate L.length drainPair).flatten).1.ctxs k =
          ctxOk s.ctxs k + L.countP (fun j0 => decide (j0.key = k)) ∧
        ctxDrop (runLog gpu s (List.replicate L.length drainPair).flatten).1.ctxs k =
          ctxDrop s.ctxs k) ∧
      (∀ k : Int,
        logAccepted (runLog gpu s (List.replicate L.length drainPair).flatten).2 k = 0) := by
  induction L with
  | nil =>
    intro s hj hi hs
    refine ⟨hj, hi, fun k => ⟨by simp [runLog_nil], by simp [runLog_nil]⟩, fun k => rfl⟩
  | cons j rest ih =>
    intro s hj hi hs
    have hev : (List.replicate (j :: rest).length drainPair).flatten =
        Event.take :: Event.deposit 0 :: (List.replicate rest.length drainPair).flatten := by
      simp [List.replicate_succ, drainPair]
    rw [hev, runLog_cons]
    have htake : stepEv gpu s Event.take =
        ({ s with jobs := rest, inflight := some j }, ⟨none, none⟩) := by
      simp only [stepEv]
      rw [worker_take_pop s j rest hs hi hj]
    rw [htake]
    rw [runLog_cons]
    have hdep : stepEv gpu { s with jobs := rest, inflight := some j } (Event.deposit 0) =
        ({ s with
            jobs := rest
            inflight := none
            ctxs := ctxUpdate s.ctxs j.key (fun c =>
              { c with
                seq := c.seq + 1
                last_ms := 0
                jobs_ok := c.jobs_ok + 1
                ring := { compute_job gpu j with seq := c.seq + 1 } ::
                  (if kRingMax ≤ c.ring.length then c.ring.dropLast else c.ring) }) },
         ⟨none, some (j.key, ctxSeq s.ctxs j.key + 1)⟩) := by
      simp only [stepEv]
      rw [worker_deposit_some gpu { s with jobs := rest, inflight := some j } j 0 rfl]
    rw [hdep]
    obtain ⟨hfj, hfi, hcnt, hacc⟩ := ih
      { s with
        jobs := rest
        inflight := none
        ctxs := ctxUpdate s.ctxs j.key (fun c =>
          { c with
            seq := c.seq + 1
            last_ms := 0
            jobs_ok := c.jobs_ok + 1
            ring := { compute_job gpu j with seq := c.seq + 1 } ::
              (if kRingMax ≤ c.ring.length then c.ring.dropLast else c.ring) }) }
      rfl rfl hs
    refine ⟨hfj, hfi, ?_, ?_⟩
    · intro k
      obtain ⟨hok, hdr⟩ := hcnt k
      constructor
      · rw [hok]
        by_cases hkey : j.key = k
        · subst hkey
          rw [ctxOk_update_self, List.countP_cons]
          simp only [decide_eq_true_eq, if_pos rfl]
          rw [ctxOk_eq]
          simp
          omega
        · rw [ctxOk_update_ne s.ctxs j.key k _ (fun hh => hkey hh.symm), List.countP_cons]
          simp only [decide_eq_true_eq, if_neg hkey]
          omega
      · rw [hdr]
        by_cases hkey : j.key = k
        · subst hkey
          rw [ctxDrop_update_self, ctxDrop_eq]
        · exact ctxDrop_update_ne s.ctxs j.key k _ (fun hh => hkey hh.symm)
    · intro k
      rw [logAccepted_cons_none _ _ _ rfl, logAccepted_cons_none _ _ _ rfl]
      exact hacc k

theorem countP_replicate_job (n : Nat) (k q : Int) :
    List.countP (fun j0 : Job => decide (j0.key = q)) (List.replicate n (subJob k)) =
      if k = q then n else 0 := by
  induction n with
  | zero => simp
  | succ n ih =>
    rw [List.replicate_succ, List.countP_cons, ih]
    by_cases h : k = q
    · simp [h, subJob]
    · simp [h, subJob]

theorem logAccepted_cons_other (o : Obs) (l : List Obs) (k k0 r : Int)
    (h : o.rc = some (k0, r)) (hne : ¬(k0 = k ∧ r = 1)) :
    logAccepted (o :: l) k = logAccepted l k := by
  unfold logAccepted
  rw [List.filterMap_cons, h]
  rw [List.countP_cons]
  have : (decide (k0 = k) && decide (r = 1)) = false := by
    rcases not_and_or.mp hne with h1 | h1 <;> simp [h1]
  simp [this]

theorem logAccepted_replicate_other (n : Nat) (k q : Int) (h : ¬(k = q ∧ (1 : Int) = 1)) :
    logAccepted (List.replicate n ⟨some (k, 1), none⟩) q = 0 := by
  induction n with
  | zero => rfl
  | succ n ih =>
    rw [List.replicate_succ, logAccepted_cons_other _ _ q k 1 rfl h, ih]

/-- C2 counterexample: the run `cexEvents` (256 accepted submits on key 1,
one accepted submit on key 2 that evicts the oldest key-1 job and bumps
`jobs_drop` on key 2, then a full drain) ends quiescent — queue empty,
nothing in flight — yet `jobs_ok + jobs_drop = 255 ≠ 256` accepted submits
on key 1 (its evicted job is charged to key 2), and `= 2 ≠ 1` on key 2.
This refutes the per-key conservation claim for multi-key interleavings. -/
theorem C2_counterexample :
    (run gpuNone init0 cexEvents).jobs = [] ∧
    (run gpuNone init0 cexEvents).inflight = none ∧
    acceptedCount gpuNone cexEvents 1 = 256 ∧
    ctxOk (run gpuNone init0 cexEvents).ctxs 1 +
      ctxDrop (run gpuNone init0 cexEvents).ctxs 1 = 255 ∧
    acceptedCount gpuNone cexEvents 2 = 1 ∧
    ctxOk (run gpuNone init0 cexEvents).ctxs 2 +
      ctxDrop (run gpuNone init0 cexEvents).ctxs 2 = 2 := by
  have hfill := runLog_fill gpuNone 256 0 (by norm_num [kQueueMax])
  simp only [Nat.zero_add] at hfill
  have hinit : (⟨List.replicate 0 (subJob 1), [], none, false⟩ : EngineState) = init0 := rfl
  rw [hinit] at hfill
  have hover : runLog gpuNone ⟨List.replicate 256 (subJob 1), [], none, false⟩ [subEv 2] =
      (⟨List.replicate 255 (subJob 1) ++ [subJob 2], [(2, ⟨[], 0, 0, 1, 0⟩)], none, false⟩,
       [⟨some (2, 1), none⟩]) := by
    rw [show [subEv 2] = subEv 2 :: [] from rfl, runLog_cons, step_overflow, runLog_nil]
  have hA : runLog gpuNone init0 (List.replicate 256 (subEv 1) ++ [subEv 2]) =
      (⟨List.replicate 255 (subJob 1) ++ [subJob 2], [(2, ⟨[], 0, 0, 1, 0⟩)], none, false⟩,
       List.replicate 256 (⟨some (1, 1), none⟩ : Obs) ++ [(⟨some (2, 1), none⟩ : Obs)]) := by
    rw [runLog_append, hfill, hover]
  have hL : (List.replicate 255 (subJob 1) ++ [subJob 2]).length = 256 := by
    rw [List.length_append, List.length_replicate]
    rfl
  have hdrain := runLog_drain gpuNone (List.replicate 255 (subJob 1) ++ [subJob 2])
    ⟨List.replicate 255 (subJob 1) ++ [subJob 2], [(2, ⟨[], 0, 0, 1, 0⟩)], none, false⟩
    rfl rfl rfl
  rw [hL] at hdrain
  obtain ⟨hdj, hdi, hdc, hda⟩ := hdrain
  have hcex : cexEvents = (List.replicate 256 (subEv 1) ++ [subEv 2]) ++
      (List.replicate 256 drainPair).flatten := by
    unfold cexEvents
    rw [List.append_assoc]
  have hrun : runLog gpuNone init0 cexEvents =
      ((runLog gpuNone
          ⟨List.replicate 255 (subJob 1) ++ [subJob 2], [(2, ⟨[], 0, 0, 1, 0⟩)], none, false⟩
          (List.replicate 256 drainPair).flatten).1,
       (List.replicate 256 (⟨some (1, 1), none⟩ : Obs) ++ [(⟨some (2, 1), none⟩ : Obs)]) ++
         (runLog gpuNone
           ⟨List.replicate 255 (subJob 1) ++ [subJob 2], [(2, ⟨[], 0, 0, 1, 0⟩)], none, false⟩
           (List.replicate 256 drainPair).flatten).2) := by
    rw [hcex, runLog_append, hA]
  have hrun1 : run gpuNone init0 cexEvents =
      (runLog gpuNone
        ⟨List.replicate 255 (subJob 1) ++ [subJob 2], [(2, ⟨[], 0, 0, 1, 0⟩)], none, false⟩
        (List.replicate 256 drainPair).flatten).1 := by
    unfold run
    rw [hrun]
  have hs2ok1 : ctxOk [(2, (⟨[], 0, 0, 1, 0⟩ : Context))] 1 = 0 := by
    simp [ctxOk, ctxFind]
  have hs2dr1 : ctxDrop [(2, (⟨[], 0, 0, 1, 0⟩ : Context))] 1 = 0 := by
    simp [ctxDrop, ctxFind]
  have hs2ok2 : ctxOk [(2, (⟨[], 0, 0, 1, 0⟩ : Context))] 2 = 0 := by
    simp [ctxOk, ctxFind]
  have hs2dr2 : ctxDrop [(2, (⟨[], 0, 0, 1, 0⟩ : Context))] 2 = 1 := by
    simp [ctxDrop, ctxFind]
  have hcnt1 : List.countP (fun j0 : Job => decide (j0.key = 1))
      (List.replicate 255 (subJob 1) ++ [subJob 2]) = 255 := by
    rw [List.countP_append, countP_replicate_job]
    simp [subJob]
  have hcnt2 : List.countP (fun j0 : Job => decide (j0.key = 2))
      (List.replicate 255 (subJob 1) ++ [subJob 2]) = 1 := by
    rw [List.countP_append, countP_replicate_job]
    norm_num
    simp [subJob]
  have hacc : ∀ k : Int, acceptedCount gpuNone cexEvents k =
      logAccepted (List.replicate 256 (⟨some (1, 1), none⟩ : Obs) ++
        [(⟨some (2, 1), none⟩ : Obs)]) k := by
    intro k
    unfold acceptedCount
    rw [hrun]
    rw [logAccepted_append, hda k, Nat.add_zero]
  refine ⟨?_, ?_, ?_, ?_, ?_, ?_⟩
  · rw [hrun1]; exact hdj
  · rw [hrun1]; exact hdi
  · rw [hacc 1, logAccepted_append, logAccepted_replicate_acc,
      logAccepted_cons_other _ _ 1 2 1 rfl (by norm_num), logAccepted_nil]
  · rw [hrun1]
    obtain ⟨hok, hdr⟩ := hdc 1
    rw [hok, hdr, hs2ok1, hs2dr1, hcnt1]
  · rw [hacc 2, logAccepted_append,
      logAccepted_replicate_other 256 1 2 (by norm_num),
      logAccepted_cons_acc _ _ 2 rfl, logAccepted_nil]
  · rw [hrun1]
    obtain ⟨hok, hdr⟩ := hdc 2
    rw [hok, hdr, hs2ok2, hs2dr2, hcnt2]

/-- One step of the single-key ledger: with all queued and in-flight jobs
on key `k` and the event (if a submit) on key `k`, the key invariant is
preserved and `jobs_ok + jobs_drop + pending + in-flight` grows by exactly
the accepted-submit indicator of the step's observation. -/
theorem stepEv_ledger (gpu : GpuOracle) (s : EngineState) (e : Event) (k : Int)
    (hso : isSubmitOf k e)
    (hkeys : ∀ j ∈ s.jobs, j.key = k)
    (hinf : ∀ j, s.inflight = some j → j.key = k) :
    (∀ j ∈ (stepEv gpu s e).1.jobs, j.key = k) ∧
    (∀ j, (stepEv gpu s e).1.inflight = some j → j.key = k) ∧
    ctxOk (stepEv gpu s e).1.ctxs k + ctxDrop (stepEv gpu s e).1.ctxs k +
      (stepEv gpu s e).1.jobs.length + inflightCount (stepEv gpu s e).1 =
    ctxOk s.ctxs k + ctxDrop s.ctxs k + s.jobs.length + inflightCount s +
      logAccepted [(stepEv gpu s e).2] k := by
  cases e with
  | submit key bt p w wmin wmax nfft det minp maxp flags =>
    have hk : key = k := hso
    subst hk
    simp only [stepEv]
    by_cases hstop : s.stop
    · have hno : SCL_Submit_step s key bt p w wmin wmax nfft det minp maxp flags = (s, 0) := by
        unfold SCL_Submit_step
        rw [if_pos hstop]
      rw [hno]
      refine ⟨hkeys, hinf, ?_⟩
      rw [logAccepted_cons_other _ _ key key 0 rfl (by norm_num), logAccepted_nil,
        Nat.add_zero]
    · have hstop0 : s.stop = false := by
        cases h : s.stop
        · rfl
        · exact absurd h hstop
      by_cases hval : p.length = 0 ∨ w.length = 0
      · have hno : SCL_Submit_step s key bt p w wmin wmax nfft det minp maxp flags =
            (s, 0) := by
          unfold SCL_Submit_step
          rw [if_neg (by rw [hstop0]; exact Bool.false_ne_true), if_pos hval]
        rw [hno]
        refine ⟨hkeys, hinf, ?_⟩
        rw [logAccepted_cons_other _ _ key key 0 rfl (by norm_num), logAccepted_nil,
          Nat.add_zero]
      · push_neg at hval
        have hp : p ≠ [] := fun h => hval.1 (by rw [h]; rfl)
        have hw : w ≠ [] := fun h => hval.2 (by rw [h]; rfl)
        by_cases hfull : kQueueMax ≤ s.jobs.length
        · rw [SCL_Submit_step_full s key bt p w wmin wmax nfft det minp maxp flags
            hstop0 hp hw hfull]
          refine ⟨?_, hinf, ?_⟩
          · intro j hj
            rcases List.mem_append.mp hj with hj | hj
            · exact hkeys j (List.mem_of_mem_tail hj)
            · rcases List.mem_singleton.mp hj with rfl
              rfl
          · rw [logAccepted_cons_acc _ _ key rfl, logAccepted_nil]
            have hok : ctxOk (ctxUpdate s.ctxs key
                (fun c => { c with jobs_drop := c.jobs_drop + 1 })) key = ctxOk s.ctxs key := by
              rw [ctxOk_update_self, ctxOk_eq]
            have hdr : ctxDrop (ctxUpdate s.ctxs key
                (fun c => { c with jobs_drop := c.jobs_drop + 1 })) key =
                ctxDrop s.ctxs key + 1 := by
              rw [ctxDrop_update_self, ctxDrop_eq]
            have hlen : 0 < s.jobs.length := by
              simp only [kQueueMax] at hfull
              omega
            simp only [hok, hdr, List.length_append, List.length_tail, List.length_cons,
              List.length_nil, inflightCount]
            omega
        · rw [SCL_Submit_step_notfull s key bt p w wmin wmax nfft det minp maxp flags
            hstop0 hp hw (not_le.mp hfull)]
          refine ⟨?_, hinf, ?_⟩
          · intro j hj
            rcases List.mem_append.mp hj with hj | hj
            · exact hkeys j hj
            · rcases List.mem_singleton.mp hj with rfl
              rfl
          · rw [logAccepted_cons_acc _ _ key rfl, logAccepted_nil]
            simp only [List.length_append, List.length_cons, List.length_nil, inflightCount]
            omega
  | take =>
    simp only [stepEv]
    have hacc : logAccepted [(⟨none, none⟩ : Obs)] k = 0 := by
      rw [logAccepted_cons_none _ _ _ rfl, logAccepted_nil]
    by_cases hstop : s.stop
    · have hno : worker_take s = s := by
        unfold worker_take
        rw [if_pos hstop]
      rw [hno]
      exact ⟨hkeys, hinf, by rw [hacc, Nat.add_zero]⟩
    · have hstop0 : s.stop = false := by
        cases h : s.stop
        · rfl
        · exact absurd h hstop
      cases hinfl : s.inflight with
      | some j =>
        have hno : worker_take s = s := by
          unfold worker_take
          rw [if_neg (by rw [hstop0]; exact Bool.false_ne_true), hinfl]
        rw [hno]
        exact ⟨hkeys, hinf, by rw [hacc, Nat.add_zero]⟩
      | none =>
        cases hjobs : s.jobs with
        | nil =>
          have hno : worker_take s = s := by
            unfold worker_take
            rw [if_neg (by rw [hstop0]; exact Bool.false_ne_true), hinfl, hjobs]
          rw [hno]
          exact ⟨hkeys, hinf, by rw [hacc, Nat.add_zero, hjobs]⟩
        | cons j rest =>
          rw [worker_take_pop s j rest hstop0 hinfl hjobs]
          refine ⟨?_, ?_, ?_⟩
          · intro j0 hj0
            exact hkeys j0 (by rw [hjobs]; exact List.mem_cons_of_mem j hj0)
          · intro j0 hj0
            obtain rfl : j = j0 := Option.some_injective _ hj0
            exact hkeys j (by rw [hjobs]; exact List.mem_cons_self j rest)
          · have hic1 : inflightCount { s with jobs := rest, inflight := some j } = 1 := rfl
            have hic0 : inflightCount s = 0 := by
              unfold inflightCount
              rw [hinfl]
              rfl
            dsimp only
            rw [hacc, Nat.add_zero, hic1, hic0, List.length_cons]
            omega
  | deposit ms =>
    simp only [stepEv]
    cases hinfl : s.inflight with
    | none =>
      have hno : worker_deposit gpu s ms = (s, none) := by
        unfold worker_deposit
        rw [hinfl]
      rw [hno]
      refine ⟨hkeys, hinf, ?_⟩
      rw [logAccepted_cons_none _ _ _ rfl, logAccepted_nil, Nat.add_zero]
    | some j =>
      have hkj : j.key = k := hinf j hinfl
      rw [worker_deposit_some gpu s j ms hinfl]
      refine ⟨hkeys, ?_, ?_⟩
      · intro j0 hj0
        exact absurd hj0 (by simp)
      · rw [logAccepted_cons_none _ _ _ rfl, logAccepted_nil]
        have hok : ctxOk (ctxUpdate s.ctxs j.key (fun c =>
            { c with
              seq := c.seq + 1
              last_ms := ms
              jobs_ok := c.jobs_ok + 1
              ring := { compute_job gpu j with seq := c.seq + 1 } ::
                (if kRingMax ≤ c.ring.length then c.ring.dropLast else c.ring) })) k =
            ctxOk s.ctxs k + 1 := by
          rw [hkj, ctxOk_update_self, ctxOk_eq]
        have hdr : ctxDrop (ctxUpdate s.ctxs j.key (fun c =>
            { c with
              seq := c.seq + 1
              last_ms := ms
              jobs_ok := c.jobs_ok + 1
              ring := { compute_job gpu j with seq := c.seq + 1 } ::
                (if kRingMax ≤ c.ring.length then c.ring.dropLast else c.ring) })) k =
            ctxDrop s.ctxs k := by
          rw [hkj, ctxDrop_update_self, ctxDrop_eq]
        have hicA : inflightCount
            { s with
              inflight := none
              ctxs := ctxUpdate s.ctxs j.key (fun c =>
                { c with
                  seq := c.seq + 1
                  last_ms := ms
                  jobs_ok := c.jobs_ok + 1
                  ring := { compute_job gpu j with seq := c.seq + 1 } ::
                    (if kRingMax ≤ c.ring.length then c.ring.dropLast else c.ring) }) } =
            0 := rfl
        have hicB : inflightCount s = 1 := by
          unfold inflightCount
          rw [hinfl]
          rfl
        dsimp only
        rw [hok, hdr, hicA, hicB]
        omega

/-- Single-key runs preserve the ledger: the two counters plus the pending
and in-flight jobs account exactly for the accepted submits. -/
theorem single_key_ledger (gpu : GpuOracle) (k : Int) (events : List Event) :
    ∀ s : EngineState,
      (∀ e ∈ events, isSubmitOf k e) →
      (∀ j ∈ s.jobs, j.key = k) →
      (∀ j, s.inflight = some j → j.key = k) →
      (∀ j ∈ (runLog gpu s events).1.jobs, j.key = k) ∧
      (∀ j, (runLog gpu s events).1.inflight = some j → j.key = k) ∧
      ctxOk (runLog gpu s events).1.ctxs k + ctxDrop (runLog gpu s events).1.ctxs k +
        (runLog gpu s events).1.jobs.length + inflightCount (runLog gpu s events).1 =
      ctxOk s.ctxs k + ctxDrop s.ctxs k + s.jobs.length + inflightCount s +
        logAccepted (runLog gpu s events).2 k := by
  induction events with
  | nil =>
    intro s hso hkeys hinf
    rw [runLog_nil]
    exact ⟨hkeys, hinf, by rw [logAccepted_nil]; rfl⟩
  | cons e es ih =>
    intro s hso hkeys hinf
    rw [runLog_cons]
    obtain ⟨h1, h2, h3⟩ := stepEv_ledger gpu s e k (hso e (List.mem_cons_self e es)) hkeys hinf
    obtain ⟨g1, g2, g3⟩ := ih (stepEv gpu s e).1
      (fun e0 he0 => hso e0 (List.mem_cons_of_mem e he0)) h1 h2
    refine ⟨g1, g2, ?_⟩
    have hsplit : logAccepted ((stepEv gpu s e).2 :: (runLog gpu (stepEv gpu s e).1 es).2) k =
        logAccepted [(stepEv gpu s e).2] k +
          logAccepted (runLog gpu (stepEv gpu s e).1 es).2 k := by
      rw [show (stepEv gpu s e).2 :: (runLog gpu (stepEv gpu s e).1 es).2 =
        [(stepEv gpu s e).2] ++ (runLog gpu (stepEv gpu s e).1 es).2 from rfl,
        logAccepted_append]
    dsimp only
    rw [hsplit]
    omega

/-- C2 (amended): for a key `k`, when every submit of the run carries key
`k` (single-key traffic), at every quiescent point — queue empty, no job
in flight — `jobs_ok + jobs_drop` on `k`'s context equals the number of
accepted submits.  (For multi-key interleavings the original claim fails,
see the counterexample: an evicted job's key and the key charged for the
drop can differ.) -/
theorem C2_single_key_conservation :
    ∀ (gpu : GpuOracle) (events : List Event) (k : Int),
      (∀ e ∈ events, isSubmitOf k e) →
      (run gpu init0 events).jobs = [] →
      (run gpu init0 events).inflight = none →
      ctxOk (run gpu init0 events).ctxs k + ctxDrop (run gpu init0 events).ctxs k =
        acceptedCount gpu events k := by
  intro gpu events k hso hq hi
  obtain ⟨-, -, h3⟩ := single_key_ledger gpu k events init0 hso
    (by intro j hj; simp [init0] at hj)
    (by intro j hj; simp [init0] at hj)
  have hlen : (runLog gpu init0 events).1.jobs.length = 0 := by
    rw [show (runLog gpu init0 events).1 = run gpu init0 events from rfl, hq]
    rfl
  have hifc : inflightCount (runLog gpu init0 events).1 = 0 := by
    unfold inflightCount
    rw [show (runLog gpu init0 events).1 = run gpu init0 events from rfl, hi]
    rfl
  rw [hlen, hifc] at h3
  have hacc : acceptedCount gpu events k = logAccepted (runLog gpu init0 events).2 k := rfl
  rw [hacc]
  have h0 : ctxOk init0.ctxs k = 0 := rfl
  have h1 : ctxDrop init0.ctxs k = 0 := rfl
  have h2 : init0.jobs.length = 0 := rfl
  have h4 : inflightCount init0 = 0 := rfl
  rw [h0, h1, h2, h4] at h3
  have hrw : ctxOk (run gpu init0 events).ctxs k + ctxDrop (run gpu init0 events).ctxs k =
      ctxOk (runLog gpu init0 events).1.ctxs k + ctxDrop (runLog gpu init0 events).1.ctxs k :=
    rfl
  rw [hrw]
  omega

/-- Witness for `C2_single_key_conservation` on a concrete one-submit,
one-drain, single-key run. -/
theorem C2_single_key_conservation_witness :
    ctxOk (run gpuNone init0 [subEv 1, Event.take, Event.deposit 0]).ctxs 1 +
      ctxDrop (run gpuNone init0 [subEv 1, Event.take, Event.deposit 0]).ctxs 1 =
      acceptedCount gpuNone [subEv 1, Event.take, Event.deposit 0] 1 :=
  C2_single_key_conservation gpuNone [subEv 1, Event.take, Event.deposit 0] 1
    (by
      intro e he
      fin_cases he
      · rfl
      · trivial
      · trivial)
    rfl rfl

/-- C6: for every key, the `seq` values of successively deposited Results
are strictly increasing: any earlier deposit in the log carries a strictly
smaller `seq` than any later deposit on the same key. -/
theorem C6_seq_strictly_increasing :
    ∀ (gpu : GpuOracle) (events : List Event) (k : Int),
      List.Pairwise (fun a b => a < b) (depositSeqs gpu events k) :=
  fun gpu events k => (logSeqs_mono gpu k events init0).1

theorem cos_int_mul_two_kpi_sub (k : ℝ) (n : ℤ) (hk : k = n) (b : ℝ) :
    Real.cos (k * (2 * kPi - b)) = Real.cos (k * b) := by
  subst hk
  have h : (n : ℝ) * (2 * kPi - b) = -((n : ℝ) * b) + (n : ℝ) * (2 * Real.pi) := by
    unfold kPi
    ring
  rw [h, Real.cos_add_int_mul_two_pi, Real.cos_neg]

theorem cos_two_kpi_sub (b : ℝ) : Real.cos (2 * kPi - b) = Real.cos b := by
  have h := cos_int_mul_two_kpi_sub 1 1 (by norm_num) b
  rw [one_mul, one_mul] at h
  exact h

theorem abs_refl_div (N x c : ℝ) :
    |(N - 1 - x - (N - 1) / 2) / c| = |(x - (N - 1) / 2) / c| := by
  rw [show (N - 1 - x - (N - 1) / 2) / c = -((x - (N - 1) / 2) / c) by ring, abs_neg]

theorem abs_refl_sub (N x : ℝ) :
    |N - 1 - x - (N - 1) / 2| = |x - (N - 1) / 2| := by
  rw [show N - 1 - x - (N - 1) / 2 = -(x - (N - 1) / 2) by ring, abs_neg]

theorem foldl_congr_fn (l : List ℕ) (f g : ℝ → ℕ → ℝ)
    (h : ∀ acc : ℝ, ∀ x ∈ l, f acc x = g acc x) :
    ∀ a : ℝ, l.foldl f a = l.foldl g a := by
  induction l with
  | nil => intro a; rfl
  | cons x xs ih =>
    intro a
    rw [List.foldl_cons, List.foldl_cons, h a x (List.mem_cons_self x xs)]
    exact ih (fun acc y hy => h acc y (List.mem_cons_of_mem x hy)) _

theorem getD_map_range (m : ℕ) (f : ℕ → ℝ) (i : ℕ) (h : i < m) :
    ((List.range m).map f).getD i 0 = f i := by
  rw [List.getD_eq_getElem?_getD, List.getElem?_map, List.getElem?_range h]
  rfl

theorem getD_map_real (l : List ℝ) (f : ℝ → ℝ) (i : ℕ) (h : i < l.length) :
    (l.map f).getD i 0 = f (l.getD i 0) := by
  rw [List.getD_eq_getElem?_getD, List.getD_eq_getElem?_getD, List.getElem?_map,
      List.getElem?_eq_getElem h]
  rfl

theorem pal_odd (L : List ℝ) (n : ℕ) (hn : 1 ≤ n) (i : ℕ) (hi : i < 2 * n - 1) :
    ((((List.range (n - 1)).map (fun idx => L.getD (n - 1 - idx) 0)) ++
      ((List.range n).map (fun idx => L.getD idx 0))).getD i 0) =
    ((((List.range (n - 1)).map (fun idx => L.getD (n - 1 - idx) 0)) ++
      ((List.range n).map (fun idx => L.getD idx 0))).getD (2 * n - 2 - i) 0) := by
  have hlen1 : ((List.range (n - 1)).map (fun idx => L.getD (n - 1 - idx) 0)).length
      = n - 1 := by
    simp
  by_cases h1 : i < n - 1
  · rw [List.getD_append _ _ _ _ (by rw [hlen1]; exact h1),
        getD_map_range _ _ _ h1,
        List.getD_append_right _ _ _ _ (by rw [hlen1]; omega),
        hlen1, getD_map_range _ _ _ (by omega)]
    have he : n - 1 - i = 2 * n - 2 - i - (n - 1) := by omega
    rw [he]
  · by_cases h2 : 2 * n - 2 - i < n - 1
    · rw [List.getD_append_right _ _ _ _ (by rw [hlen1]; omega),
          hlen1, getD_map_range _ _ _ (by omega),
          List.getD_append _ _ _ _ (by rw [hlen1]; exact h2),
          getD_map_range _ _ _ h2]
      have he : i - (n - 1) = n - 1 - (2 * n - 2 - i) := by omega
      rw [he]
    · rw [List.getD_append_right _ _ _ _ (by rw [hlen1]; omega),
          hlen1, getD_map_range _ _ _ (by omega),
          List.getD_append_right _ _ _ _ (by rw [hlen1]; omega),
          hlen1, getD_map_range _ _ _ (by omega)]
      have he : i - (n - 1) = 2 * n - 2 - i - (n - 1) := by omega
      rw [he]

theorem pal_even (L : List ℝ) (n : ℕ) (hn : 1 ≤ n) (i : ℕ) (hi : i < 2 * n - 2) :
    ((((List.range (n - 1)).map (fun idx => L.getD (n - 1 - idx) 0)) ++
      ((List.range (n - 1)).map (fun idx => L.getD (idx + 1) 0))).getD i 0) =
    ((((List.range (n - 1)).map (fun idx => L.getD (n - 1 - idx) 0)) ++
      ((List.range (n - 1)).map (fun idx => L.getD (idx + 1) 0))).getD (2 * n - 3 - i) 0) := by
  have hlen1 : ((List.range (n - 1)).map (fun idx => L.getD (n - 1 - idx) 0)).length
      = n - 1 := by
    simp
  by_cases h1 : i < n - 1
  · rw [List.getD_append _ _ _ _ (by rw [hlen1]; exact h1),
        getD_map_range _ _ _ h1,
        List.getD_append_right _ _ _ _ (by rw [hlen1]; omega),
        hlen1, getD_map_range _ _ _ (by omega)]
    have he : n - 1 - i = 2 * n - 3 - i - (n - 1) + 1 := by omega
    rw [he]
  · have h2 : 2 * n - 3 - i < n - 1 := by omega
    rw [List.getD_append_right _ _ _ _ (by rw [hlen1]; omega),
        hlen1, getD_map_range _ _ _ (by omega),
        List.getD_append _ _ _ _ (by rw [hlen1]; exact h2),
        getD_map_range _ _ _ h2]
    have he : i - (n - 1) + 1 = n - 1 - (2 * n - 3 - i) := by omega
    rw [he]


theorem cheb_shape_sym (L : List ℝ) (M : ℕ) (hM : 2 ≤ M) (c : ℝ) :
    ((if M % 2 = 1 then
        ((List.range ((M + 1) / 2 - 1)).map (fun idx => L.getD ((M + 1) / 2 - 1 - idx) 0)) ++
          ((List.range ((M + 1) / 2)).map (fun idx => L.getD idx 0))
      else
        ((List.range (M / 2 + 1 - 1)).map (fun idx => L.getD (M / 2 + 1 - 1 - idx) 0)) ++
          ((List.range (M / 2 + 1 - 1)).map (fun idx => L.getD (idx + 1) 0))).map
        (fun v => v / c)).length = M ∧
    ∀ i, i < M →
      ((if M % 2 = 1 then
        ((List.range ((M + 1) / 2 - 1)).map (fun idx => L.getD ((M + 1) / 2 - 1 - idx) 0)) ++
          ((List.range ((M + 1) / 2)).map (fun idx => L.getD idx 0))
      else
        ((List.range (M / 2 + 1 - 1)).map (fun idx => L.getD (M / 2 + 1 - 1 - idx) 0)) ++
          ((List.range (M / 2 + 1 - 1)).map (fun idx => L.getD (idx + 1) 0))).map
        (fun v => v / c)).getD i 0 =
      ((if M % 2 = 1 then
        ((List.range ((M + 1) / 2 - 1)).map (fun idx => L.getD ((M + 1) / 2 - 1 - idx) 0)) ++
          ((List.range ((M + 1) / 2)).map (fun idx => L.getD idx 0))
      else
        ((List.range (M / 2 + 1 - 1)).map (fun idx => L.getD (M / 2 + 1 - 1 - idx) 0)) ++
          ((List.range (M / 2 + 1 - 1)).map (fun idx => L.getD (idx + 1) 0))).map
        (fun v => v / c)).getD (M - 1 - i) 0 := by
  by_cases hodd : M % 2 = 1
  · rw [if_pos hodd]
    have hn : 1 ≤ (M + 1) / 2 := by omega
    have hwlen : (((List.range ((M + 1) / 2 - 1)).map
          (fun idx => L.getD ((M + 1) / 2 - 1 - idx) 0)) ++
        ((List.range ((M + 1) / 2)).map (fun idx => L.getD idx 0))).length = M := by
      simp
      omega
    constructor
    · rw [List.length_map, hwlen]
    · intro i hi
      rw [getD_map_real _ _ _ (by rw [hwlen]; exact hi),
          getD_map_real _ _ _ (by rw [hwlen]; omega)]
      have hp := pal_odd L ((M + 1) / 2) hn i (by omega)
      have hM1 : M - 1 - i = 2 * ((M + 1) / 2) - 2 - i := by omega
      rw [hM1, hp]
  · rw [if_neg hodd]
    have hn : 1 ≤ M / 2 + 1 := by omega
    have hwlen : (((List.range (M / 2 + 1 - 1)).map
          (fun idx => L.getD (M / 2 + 1 - 1 - idx) 0)) ++
        ((List.range (M / 2 + 1 - 1)).map (fun idx => L.getD (idx + 1) 0))).length = M := by
      simp
      omega
    constructor
    · rw [List.length_map, hwlen]
    · intro i hi
      rw [getD_map_real _ _ _ (by rw [hwlen]; exact hi),
          getD_map_real _ _ _ (by rw [hwlen]; omega)]
      have hp := pal_even L (M / 2 + 1) hn i (by omega)
      have hM1 : M - 1 - i = 2 * (M / 2 + 1) - 3 - i := by omega
      rw [hM1, hp]

theorem cheb_window_sym (M : ℕ) (hM : 2 ≤ M) (at0 : ℝ) :
    (cheb_window M false at0).length = M ∧
    ∀ i, i < M → (cheb_window M false at0).getD i 0
               = (cheb_window M false at0).getD (M - 1 - i) 0 := by
  unfold cheb_window
  dsimp only
  exact cheb_shape_sym _ M hM _


theorem win_core_symm (type : Int) (M i : ℕ) (params coeffs : List ℝ)
    (hM : 2 ≤ M) (hi : i < M)
    (h18 : type = 18 → params.getD 1 0 < 0) :
    win_core type M params coeffs i = win_core type M params coeffs (M - 1 - i) := by
  have hMR : (2 : ℝ) ≤ (M : ℝ) := by exact_mod_cast hM
  have hN1 : (0 : ℝ) < (M : ℝ) - 1 := by linarith
  have hNne : (M : ℝ) - 1 ≠ 0 := ne_of_gt hN1
  have hN0 : (M : ℝ) ≠ 0 := by positivity
  have hy : ((M - 1 - i : ℕ) : ℝ) = (M : ℝ) - 1 - (i : ℝ) := by
    have h1 : 1 ≤ M := by omega
    have h2 : i ≤ M - 1 := by omega
    rw [Nat.cast_sub h2, Nat.cast_sub h1, Nat.cast_one]
  by_cases h0 : type = 0
  · subst h0
    simp only [win_core, Int.reduceEq, if_true, if_false]
  by_cases h1 : type = 1
  · subst h1
    simp only [win_core, Int.reduceEq, if_true, if_false]
    rw [hy, abs_refl_div]
  by_cases h2 : type = 2
  · subst h2
    simp only [win_core, Int.reduceEq, if_true, if_false]
    rw [hy, abs_refl_div]
  by_cases h3 : type = 3
  · subst h3
    simp only [win_core, Int.reduceEq, if_true, if_false]
    rw [hy, abs_refl_div]
  by_cases h4 : type = 4
  · subst h4
    simp only [win_core, Int.reduceEq, if_true, if_false]
    rw [hy]
    have hang : 2 * kPi * ((M : ℝ) - 1 - (i : ℝ)) / ((M : ℝ) - 1) =
        2 * kPi - 2 * kPi * (i : ℝ) / ((M : ℝ) - 1) := by
      field_simp
      ring
    rw [hang, cos_two_kpi_sub, cos_int_mul_two_kpi_sub 2 2 (by norm_num)]
  by_cases h5 : type = 5
  · subst h5
    simp only [win_core, Int.reduceEq, if_true, if_false]
    rw [hy]
    have hang : 2 * kPi * ((M : ℝ) - 1 - (i : ℝ)) / ((M : ℝ) - 1) =
        2 * kPi - 2 * kPi * (i : ℝ) / ((M : ℝ) - 1) := by
      field_simp
      ring
    rw [hang, cos_two_kpi_sub, cos_int_mul_two_kpi_sub 2 2 (by norm_num),
        cos_int_mul_two_kpi_sub 3 3 (by norm_num)]
  by_cases h6 : type = 6
  · subst h6
    simp only [win_core, Int.reduceEq, if_true, if_false]
    rw [hy]
    have hang : 2 * kPi * ((M : ℝ) - 1 - (i : ℝ)) / ((M : ℝ) - 1) =
        2 * kPi - 2 * kPi * (i : ℝ) / ((M : ℝ) - 1) := by
      field_simp
      ring
    rw [hang, cos_two_kpi_sub, cos_int_mul_two_kpi_sub 2 2 (by norm_num),
        cos_int_mul_two_kpi_sub 3 3 (by norm_num)]
  by_cases h7 : type = 7
  · subst h7
    simp only [win_core, Int.reduceEq, if_true, if_false]
    rw [hy]
    have hang : 2 * kPi * ((M : ℝ) - 1 - (i : ℝ)) / ((M : ℝ) - 1) =
        2 * kPi - 2 * kPi * (i : ℝ) / ((M : ℝ) - 1) := by
      field_simp
      ring
    rw [hang, cos_two_kpi_sub, cos_int_mul_two_kpi_sub 2 2 (by norm_num),
        cos_int_mul_two_kpi_sub 3 3 (by norm_num),
        cos_int_mul_two_kpi_sub 4 4 (by norm_num)]
  by_cases h8 : type = 8
  · subst h8
    simp only [win_core, Int.reduceEq, if_true, if_false]
    rw [hy, abs_refl_div]
  by_cases h9 : type = 9
  · subst h9
    simp only [win_core, Int.reduceEq, if_true, if_false]
    rw [hy]
    have hang : 2 * kPi * ((M : ℝ) - 1 - (i : ℝ)) / ((M : ℝ) - 1) =
        2 * kPi - 2 * kPi * (i : ℝ) / ((M : ℝ) - 1) := by
      field_simp
      ring
    rw [hang, cos_two_kpi_sub]
  by_cases h10 : type = 10
  · subst h10
    simp only [win_core, Int.reduceEq, if_true, if_false]
    rw [hy]
    by_cases ha0 : params.getD 0 0 ≤ 0
    · rw [if_pos ha0, if_pos ha0]
    · rw [if_neg ha0, if_neg ha0]
      push_neg at ha0
      by_cases ha1 : (1 : ℝ) ≤ params.getD 0 0
      · rw [if_pos ha1, if_pos ha1]
        have hang : 2 * kPi * ((M : ℝ) - 1 - (i : ℝ)) / ((M : ℝ) - 1) =
            2 * kPi - 2 * kPi * (i : ℝ) / ((M : ℝ) - 1) := by
          field_simp
          ring
        rw [hang, cos_two_kpi_sub]
      · rw [if_neg ha1, if_neg ha1]
        push_neg at ha1
        have hane : params.getD 0 0 ≠ 0 := ne_of_gt ha0
        have hDE : params.getD 0 0 * ((M : ℝ) - 1) / 2 ≤
            ((M : ℝ) - 1) * (1 - params.getD 0 0 / 2) := by
          nlinarith [mul_nonneg hN1.le (show (0 : ℝ) ≤ 1 - params.getD 0 0 by linarith)]
        have h21 : 2 * ((M : ℝ) - 1) / params.getD 0 0 / ((M : ℝ) - 1) =
            2 / params.getD 0 0 := by
          rw [div_div]
          exact mul_div_mul_right 2 (params.getD 0 0) hNne
        have e1 : 2 * ((M : ℝ) - 1 - (i : ℝ)) / params.getD 0 0 / ((M : ℝ) - 1) =
            2 / params.getD 0 0 - 2 * (i : ℝ) / params.getD 0 0 / ((M : ℝ) - 1) := by
          rw [show 2 * ((M : ℝ) - 1 - (i : ℝ)) =
                2 * ((M : ℝ) - 1) - 2 * (i : ℝ) from by ring,
              sub_div, sub_div, h21]
        by_cases hx1 : (i : ℝ) < params.getD 0 0 * ((M : ℝ) - 1) / 2
        · have hy1 : ¬((M : ℝ) - 1 - (i : ℝ) < params.getD 0 0 * ((M : ℝ) - 1) / 2) := by
            push_neg
            linarith
          have hy2 : ¬((M : ℝ) - 1 - (i : ℝ) ≤ ((M : ℝ) - 1) * (1 - params.getD 0 0 / 2)) := by
            push_neg
            linarith
          rw [if_pos hx1, if_neg hy1, if_neg hy2, e1]
          rw [show kPi * (2 / params.getD 0 0 - 2 * (i : ℝ) / params.getD 0 0 / ((M : ℝ) - 1) -
              2 / params.getD 0 0 + 1) =
            -(kPi * (2 * (i : ℝ) / params.getD 0 0 / ((M : ℝ) - 1) - 1)) from by ring,
            Real.cos_neg]
        · push_neg at hx1
          by_cases hx2 : (i : ℝ) ≤ ((M : ℝ) - 1) * (1 - params.getD 0 0 / 2)
          · have hy1 : ¬((M : ℝ) - 1 - (i : ℝ) < params.getD 0 0 * ((M : ℝ) - 1) / 2) := by
              push_neg
              linarith
            have hy2 : (M : ℝ) - 1 - (i : ℝ) ≤ ((M : ℝ) - 1) * (1 - params.getD 0 0 / 2) := by
              linarith
            rw [if_neg (not_lt.mpr hx1), if_pos hx2, if_neg hy1, if_pos hy2]
          · push_neg at hx2
            have hy1 : (M : ℝ) - 1 - (i : ℝ) < params.getD 0 0 * ((M : ℝ) - 1) / 2 := by
              linarith
            rw [if_neg (not_lt.mpr hx1), if_neg (not_le.mpr hx2), if_pos hy1, e1]
            rw [show kPi * (2 / params.getD 0 0 -
                2 * (i : ℝ) / params.getD 0 0 / ((M : ℝ) - 1) - 1) =
              -(kPi * (2 * (i : ℝ) / params.getD 0 0 / ((M : ℝ) - 1) - 2 / params.getD 0 0 + 1))
              from by ring, Real.cos_neg]
  by_cases h11 : type = 11
  · subst h11
    simp only [win_core, Int.reduceEq, if_true, if_false]
    rw [hy, abs_refl_div]
  by_cases h12 : type = 12
  · subst h12
    simp only [win_core, Int.reduceEq, if_true, if_false]
    rw [hy]
    have hang : 2 * kPi * ((M : ℝ) - 1 - (i : ℝ)) / ((M : ℝ) - 1) =
        2 * kPi - 2 * kPi * (i : ℝ) / ((M : ℝ) - 1) := by
      field_simp
      ring
    rw [hang, cos_two_kpi_sub]
  by_cases h13 : type = 13
  · subst h13
    simp only [win_core, Int.reduceEq, if_true, if_false]
    rw [hy]
    have hang : 2 * kPi * ((M : ℝ) - 1 - (i : ℝ)) / ((M : ℝ) - 1) =
        2 * kPi - 2 * kPi * (i : ℝ) / ((M : ℝ) - 1) := by
      field_simp
      ring
    rw [hang, cos_two_kpi_sub]
  by_cases h14 : type = 14
  · subst h14
    simp only [win_core, Int.reduceEq, if_true, if_false]
    rw [hy]
    have hr : 1 - (2 * ((M : ℝ) - 1 - (i : ℝ)) / ((M : ℝ) - 1) - 1) *
        (2 * ((M : ℝ) - 1 - (i : ℝ)) / ((M : ℝ) - 1) - 1) =
        1 - (2 * (i : ℝ) / ((M : ℝ) - 1) - 1) * (2 * (i : ℝ) / ((M : ℝ) - 1) - 1) := by
      field_simp
      ring
    rw [hr]
  by_cases h15 : type = 15
  · subst h15
    simp only [win_core, Int.reduceEq, if_true, if_false]
    rw [hy]
    congr 1
    ring
  by_cases h16 : type = 16
  · subst h16
    simp only [win_core, Int.reduceEq, if_true, if_false]
    rw [hy, abs_refl_div]
  by_cases h17 : type = 17
  · subst h17
    simp only [win_core, Int.reduceEq, if_true, if_false]
    rw [hy]
    have hs : kPi / (M : ℝ) * ((M : ℝ) - 1 - (i : ℝ) + 0.5) =
        kPi - kPi / (M : ℝ) * ((i : ℝ) + 0.5) := by
      field_simp
      ring
    rw [hs, show Real.sin (kPi - kPi / (M : ℝ) * ((i : ℝ) + 0.5)) =
      Real.sin (kPi / (M : ℝ) * ((i : ℝ) + 0.5)) from by unfold kPi; exact Real.sin_pi_sub _]
  by_cases h18' : type = 18
  · have hc : params.getD 1 0 < 0 := h18 h18'
    subst h18'
    simp only [win_core, Int.reduceEq, if_true, if_false]
    rw [hy, if_pos hc, abs_refl_sub]
  by_cases h19 : type = 19
  · subst h19
    simp only [win_core, Int.reduceEq, if_true, if_false]
    rw [hy]
    have hfac : -kPi + 2 * kPi / ((M : ℝ) - 1) * ((M : ℝ) - 1 - (i : ℝ)) =
        -(-kPi + 2 * kPi / ((M : ℝ) - 1) * (i : ℝ)) := by
      field_simp
      ring
    rw [hfac]
    refine foldl_congr_fn _ _ _ (fun acc kk hkk => ?_) 0
    rw [mul_neg, Real.cos_neg]
  by_cases h21' : type = 21
  · subst h21'
    simp only [win_core, Int.reduceEq, if_true, if_false]
    rw [hy]
    have htemp : 2 * kPi / (M : ℝ) * ((M : ℝ) - 1 - (i : ℝ) - (M : ℝ) / 2 + 0.5) =
        -(2 * kPi / (M : ℝ) * ((i : ℝ) - (M : ℝ) / 2 + 0.5)) := by
      ring
    rw [htemp]
    have hdot : ∀ a : ℝ, (List.range coeffs.length).foldl
        (fun t kk => t + coeffs.getD kk 0 *
          Real.cos (-(2 * kPi / (M : ℝ) * ((i : ℝ) - (M : ℝ) / 2 + 0.5)) * ((kk : ℝ) + 1))) a =
        (List.range coeffs.length).foldl
        (fun t kk => t + coeffs.getD kk 0 *
          Real.cos (2 * kPi / (M : ℝ) * ((i : ℝ) - (M : ℝ) / 2 + 0.5) * ((kk : ℝ) + 1))) a := by
      intro a
      refine foldl_congr_fn _ _ _ (fun acc kk hkk => ?_) a
      rw [neg_mul, Real.cos_neg]
    rw [hdot]
  simp only [win_core, if_neg h0, if_neg h1, if_neg h2, if_neg h3, if_neg h4, if_neg h5,
    if_neg h6, if_neg h7, if_neg h8, if_neg h9, if_neg h10, if_neg h11, if_neg h12,
    if_neg h13, if_neg h14, if_neg h15, if_neg h16, if_neg h17, if_neg h18', if_neg h19,
    if_neg h21']


set_option maxHeartbeats 1000000 in
theorem window_spec_safe (name : String) :
    (window_spec_from_name name).type = 18 →
    (window_spec_from_name name).params.getD 1 0 < 0 := by
  unfold window_spec_from_name
  dsimp only
  by_cases c0 : name.toLower = "boxcar" ∨ name.toLower = "box" ∨ name.toLower = "ones" ∨ name.toLower = "rect" ∨ name.toLower = "rectangular"
  · rw [if_pos c0]
    intro h
    exact absurd h (by decide)
  rw [if_neg c0]
  by_cases c1 : name.toLower = "triang" ∨ name.toLower = "triangle" ∨ name.toLower = "tri"
  · rw [if_pos c1]
    intro h
    exact absurd h (by decide)
  rw [if_neg c1]
  by_cases c2 : name.toLower = "parzen" ∨ name.toLower = "parz" ∨ name.toLower = "par"
  · rw [if_pos c2]
    intro h
    exact absurd h (by decide)
  rw [if_neg c2]
  by_cases c3 : name.toLower = "bohman" ∨ name.toLower = "bman" ∨ name.toLower = "bmn"
  · rw [if_pos c3]
    intro h
    exact absurd h (by decide)
  rw [if_neg c3]
  by_cases c4 : name.toLower = "blackman" ∨ name.toLower = "black" ∨ name.toLower = "blk"
  · rw [if_pos c4]
    intro h
    exact absurd h (by decide)
  rw [if_neg c4]
  by_cases c5 : name.toLower = "blackmanharris" ∨ name.toLower = "blackharr" ∨ name.toLower = "bkh"
  · rw [if_pos c5]
    intro h
    exact absurd h (by decide)
  rw [if_neg c5]
  by_cases c6 : name.toLower = "nuttall" ∨ name.toLower = "nutl" ∨ name.toLower = "nut"
  · rw [if_pos c6]
    intro h
    exact absurd h (by decide)
  rw [if_neg c6]
  by_cases c7 : name.toLower = "flattop" ∨ name.toLower = "flat" ∨ name.toLower = "flt"
  · rw [if_pos c7]
    intro h
    exact absurd h (by decide)
  rw [if_neg c7]
  by_cases c8 : name.toLower = "bartlett" ∨ name.toLower = "bart" ∨ name.toLower = "brt"
  · rw [if_pos c8]
    intro h
    exact absurd h (by decide)
  rw [if_neg c8]
  by_cases c9 : name.toLower = "hann" ∨ name.toLower = "hanning" ∨ name.toLower = "han"
  · rw [if_pos c9]
    intro h
    exact absurd h (by decide)
  rw [if_neg c9]
  by_cases c10 : name.toLower = "hamming" ∨ name.toLower = "hamm" ∨ name.toLower = "ham"
  · rw [if_pos c10]
    intro h
    exact absurd h (by decide)
  rw [if_neg c10]
  by_cases c11 : name.toLower = "barthann" ∨ name.toLower = "brthan" ∨ name.toLower = "bth"
  · rw [if_pos c11]
    intro h
    exact absurd h (by decide)
  rw [if_neg c11]
  by_cases c12 : name.toLower = "cosine" ∨ name.toLower = "halfcosine"
  · rw [if_pos c12]
    intro h
    exact absurd h (by decide)
  rw [if_neg c12]
  by_cases c13 : name.toLower = "tukey" ∨ name.toLower = "tuk"
  · rw [if_pos c13]
    intro h
    exact absurd h (by decide)
  rw [if_neg c13]
  by_cases c14 : name.toLower = "kaiser" ∨ name.toLower = "ksr"
  · rw [if_pos c14]
    intro h
    exact absurd h (by decide)
  rw [if_neg c14]
  by_cases c15 : name.toLower = "gaussian" ∨ name.toLower = "gauss" ∨ name.toLower = "gss"
  · rw [if_pos c15]
    intro h
    exact absurd h (by decide)
  rw [if_neg c15]
  by_cases c16 : name.toLower = "general_gaussian" ∨ name.toLower = "general gaussian" ∨ name.toLower = "general gauss" ∨ name.toLower = "general_gauss" ∨ name.toLower = "ggs"
  · rw [if_pos c16]
    intro h
    exact absurd h (by decide)
  rw [if_neg c16]
  by_cases c17 : name.toLower = "general_cosine" ∨ name.toLower = "general cosine"
  · rw [if_pos c17]
    intro h
    exact absurd h (by decide)
  rw [if_neg c17]
  by_cases c18 : name.toLower = "general_hamming"
  · rw [if_pos c18]
    intro h
    exact absurd h (by decide)
  rw [if_neg c18]
  by_cases c19 : name.toLower = "exponential" ∨ name.toLower = "poisson"
  · rw [if_pos c19]
    intro h
    show (-1 : ℝ) < 0
    norm_num
  rw [if_neg c19]
  by_cases c20 : name.toLower = "chebwin" ∨ name.toLower = "cheb"
  · rw [if_pos c20]
    intro h
    exact absurd h (by decide)
  rw [if_neg c20]
  by_cases c21 : name.toLower = "taylor"
  · rw [if_pos c21]
    intro h
    exact absurd h (by decide)
  rw [if_neg c21]
  intro h
  exact absurd h (by decide)

/-- C8: for every recognised window name and every length M ≥ 2, symmetric
(non-fftbins) window generation produces exactly M real values satisfying
w[i] = w[M-1-i] for all i.  In the real-number embedding the symmetry is
exact, hence within any positive tolerance such as 1e-12. -/
theorem C8_window_symmetry (name : String) (M : ℕ) (hM : 2 ≤ M) :
    (window_generate name M false).length = M ∧
    ∀ i, i < M → (window_generate name M false).getD i 0
               = (window_generate name M false).getD (M - 1 - i) 0 := by
  by_cases hcb : (window_spec_from_name name).use_cheb = true
  · have hwg : window_generate name M false =
        cheb_window M false (window_spec_from_name name).cheb_at := by
      unfold window_generate
      dsimp only
      rw [if_pos hcb]
    rw [hwg]
    exact cheb_window_sym M hM _
  · by_cases htl : (window_spec_from_name name).use_taylor = true
    · have hwg : window_generate name M false =
          (List.range M).map (win_core 21 M
            [if (window_spec_from_name name).taylor_norm then 1 else 0]
            (taylor_coeffs (window_spec_from_name name).taylor_nbar
              (window_spec_from_name name).taylor_sll)) := by
        unfold window_generate
        dsimp only
        rw [if_neg hcb, if_pos htl]
        rfl
      rw [hwg]
      constructor
      · rw [List.length_map, List.length_range]
      · intro i hi
        rw [getD_map_range _ _ _ hi, getD_map_range _ _ _ (by omega)]
        exact win_core_symm 21 M i _ _ hM hi (fun h => absurd h (by norm_num))
    · have hwg : window_generate name M false =
          (List.range M).map (win_core (window_spec_from_name name).type M
            (window_spec_from_name name).params (window_spec_from_name name).coeffs) := by
        unfold window_generate
        dsimp only
        rw [if_neg hcb, if_neg htl]
        rfl
      rw [hwg]
      constructor
      · rw [List.length_map, List.length_range]
      · intro i hi
        rw [getD_map_range _ _ _ hi, getD_map_range _ _ _ (by omega)]
        exact win_core_symm _ M i _ _ hM hi (window_spec_safe name)

theorem C8_window_symmetry_witness :
    (window_generate ("hann") 4 false).length = 4 ∧
    (window_generate ("hann") 4 false).getD 1 0 =
      (window_generate ("hann") 4 false).getD 2 0 :=
  ⟨(C8_window_symmetry ("hann") 4 (by norm_num)).1,
   (C8_window_symmetry ("hann") 4 (by norm_num)).2 1 (by norm_num)⟩

end SCL
